import Mathlib

/-
  Verification of the watchman I/O thread core
  (src/watchman/root/iothread.cpp, src/watchman/root/sync.cpp).

  Shallow embedding: the mutable state touched by the I/O thread is made
  explicit (`Sys`, `IoState`), external inputs (filesystem answers, the
  shared pending queue contents at each drain, the wake flag) are passed
  in as data (`Fs`, `Batch`, `StepEnv`), and observable side effects
  (cookie notifications, the settled notification, promise resolution,
  cookie aborts) are recorded on an event trace (`Sys.events`).

  Wall-clock timestamps (the `now` field of a pending change, crawlStart /
  crawlFinish) and log output are not modelled: no claim depends on them.
  Collaborators whose code is not part of this snapshot (PendingChanges,
  CookieSync, ViewDatabase internals, statPath, markDirDeleted,
  handle_open_errno, Root::scheduleRecrawl) are modelled from the spec;
  each such definition carries a doc comment saying so.
-/

set_option maxHeartbeats 1600000

namespace Watchman

/-- A filesystem path, as the list of its name components under (and
including) the root.  The watched root itself is `Config.rootPath`. -/
abbrev Path := List String

/-- The `W_PENDING_*` flag set carried by a pending change
(spec section 3, iothread.cpp uses of `PendingFlags`). -/
structure PendingFlags where
  recursive : Bool := false
  viaNotify : Bool := false
  crawlOnly : Bool := false
  nonrecursiveScan : Bool := false
  isDesynced : Bool := false
deriving DecidableEq

/-- A pending change record.  The wall-clock `now` timestamp of the C++
struct is not modelled (no claim depends on it). -/
structure PendingChange where
  path : Path
  flags : PendingFlags
deriving DecidableEq

/-- One batch of items and sync barriers delivered by a drain
(`stealItems`/`stealSyncs`) of the shared PendingCollection. -/
structure Batch where
  items : List PendingChange := []
  syncs : List Nat := []
deriving DecidableEq

/-- The thread-private `PendingChanges` collection (`localPending`, and
the working collection of `processAllPending`).  Sync barriers are
identified by numeric ids. -/
structure PendingColl where
  items : List PendingChange := []
  syncs : List Nat := []
deriving DecidableEq

def PendingColl.isEmpty (c : PendingColl) : Bool :=
  c.items.isEmpty && c.syncs.isEmpty

def PendingColl.appendBatch (c : PendingColl) (b : Batch) : PendingColl :=
  ⟨c.items ++ b.items, c.syncs ++ b.syncs⟩

/-- Modelled from the spec: `PendingChanges::add` (the queue code is not
part of this snapshot).  Spec section 3: "A coalescing multiset: adding a
path that is a prefix of an existing pending path subsumes the
descendant; adding a descendant of an already-pending recursive entry is
a no-op." -/
def PendingColl.add (c : PendingColl) (p : Path) (fl : PendingFlags) : PendingColl :=
  if c.items.any fun q => q.flags.recursive && q.path.isPrefixOf p then c
  else ⟨(c.items.filter fun q => !(p.isPrefixOf q.path)) ++ [⟨p, fl⟩], c.syncs⟩

/-- A `watchman_file` node of the view (spec section 3).  The tick clock
value at which it was last observed is `otime`. -/
structure FileNode where
  fileExists : Bool
  maybeDeleted : Bool
  isDir : Bool
  otime : Nat
deriving DecidableEq

/-- The in-memory view, flattened: directory nodes and file nodes are
indexed by their full path.  `deletedDirs` records which directories have
been tombstoned by `markDirDeleted` (observable for the error-handling
claims). -/
structure ViewDatabase where
  dirs : List Path := []
  deletedDirs : List Path := []
  files : List (Path × FileNode) := []
  rootInode : Nat := 0
deriving DecidableEq

/-- Static configuration of a root: watcher capability flags, the cookie
path prefixes, and the duration options (in milliseconds). -/
structure Config where
  rootPath : Path := []
  perFileNotifications : Bool := false
  coalescedRename : Bool := false
  cookiePaths : List Path := []
  gcInterval : Nat := 0
  idleReapAge : Nat := 0
  triggerSettle : Nat := 20
deriving DecidableEq

/-- The filesystem / watcher answers the crawler can receive.
`statInode p` is the inode returned by `getFileInformation`, `none` on
failure.  `openDir p` is the result of `startWatchDir`: `none` on
failure, otherwise the directory entries successfully enumerated
together with a flag saying whether `readDir` then failed
mid-enumeration (entries read before the failure are still delivered,
matching the `try`/`catch` around the enumeration loop). -/
structure Fs where
  statInode : Path → Option Nat
  openDir : Path → Option (List String × Bool)

/-- Observable side effects of the I/O thread, in program order. -/
inductive Event where
  | notifyCookie (p : Path)
  | settled
  | abortAllCookies
  | syncResolved (id : Nat)
  | readyFulfilled
  | stopWatch
deriving DecidableEq

/-- The shared mutable state of a root as seen by the I/O thread:
`root->inner.done_initial`, `recrawlInfo->shouldRecrawl` /
`recrawlCount`, `root->inner.cancelled`, `stopThreads_`,
`mostRecentTick_`, the crawlState promise, the view, and the event
trace. -/
structure Sys where
  doneInitial : Bool
  shouldRecrawl : Bool
  recrawlCount : Nat
  cancelled : Bool
  stopThreads : Bool
  crawlStatePromise : Bool
  mostRecentTick : Nat
  view : ViewDatabase
  events : List Event
deriving DecidableEq

/-- The fields of `Sys` that the recursive path-processing functions
never modify (they may only change the view, the event trace and
`shouldRecrawl`). -/
def Sys.core (s : Sys) : Bool × Nat × Bool × Bool × Bool × Nat :=
  (s.doneInitial, s.recrawlCount, s.cancelled, s.stopThreads,
   s.crawlStatePromise, s.mostRecentTick)

/-- The `IoThreadState` of the step function. -/
structure IoState where
  biggestTimeout : Nat
  currentTimeout : Nat
  localPending : PendingColl := {}
deriving DecidableEq

/-- `InMemoryView::Continue`. -/
inductive Continue where
  | Continue
  | Stop
deriving DecidableEq

/-- Environment inputs consumed by one execution of `stepIoThread`: the
wake result of `lockAndWait` (`pinged` plus the batch stolen from the
shared queue), the successive batches the shared queue would deliver to
the drains inside a full crawl at the top of the step
(`crawlBatches1`) and inside the recrawl branch (`crawlBatches2`), and
the answer of `root.considerReap()`. -/
structure StepEnv where
  pinged : Bool
  wakeBatch : Batch := {}
  crawlBatches1 : List Batch := []
  crawlBatches2 : List Batch := []
  considerReap : Bool := false
deriving DecidableEq

/-! ### View operations

`ViewDatabase` internals live outside this snapshot; the operations the
I/O thread calls are modelled from the spec's data-model section. -/

/-- Modelled from the spec: `view.resolveDir(path, true)` resolves (and
creates if absent) the directory node for a path. -/
def ViewDatabase.resolveDir (v : ViewDatabase) (p : Path) : ViewDatabase :=
  if v.dirs.contains p then v else { v with dirs := v.dirs ++ [p] }

/-- Modelled from the spec: `markDirDeleted` tombstones a directory:
the directory is recorded deleted and the file nodes below it are marked
non-existent ("A node marked non-existent is retained (tombstoned)"). -/
def ViewDatabase.markDirDeleted (v : ViewDatabase) (p : Path) : ViewDatabase :=
  { v with
    deletedDirs := v.deletedDirs ++ [p],
    files := v.files.map fun kv =>
      if p.isPrefixOf kv.1 then (kv.1, { kv.2 with fileExists := false }) else kv }

/-- The delete-detection marking of iothread.cpp: every currently
existing child file of the directory gets `maybe_deleted = true`. -/
def ViewDatabase.setMaybeDeleted (v : ViewDatabase) (dir : Path) : ViewDatabase :=
  { v with
    files := v.files.map fun kv =>
      if kv.1.length == dir.length + 1 && dir.isPrefixOf kv.1 && kv.2.fileExists
      then (kv.1, { kv.2 with maybeDeleted := true }) else kv }

/-- `file->maybe_deleted = false` for the file node at a path. -/
def ViewDatabase.clearMaybeDeleted (v : ViewDatabase) (p : Path) : ViewDatabase :=
  { v with
    files := v.files.map fun kv =>
      if kv.1 == p then (kv.1, { kv.2 with maybeDeleted := false }) else kv }

/-- `dir->getChildFile(name)`, on the flattened map. -/
def ViewDatabase.lookupFile (v : ViewDatabase) (p : Path) : Option FileNode :=
  (v.files.find? fun kv => kv.1 == p).map Prod.snd

/-- The direct child file nodes of a directory. -/
def ViewDatabase.childFiles (v : ViewDatabase) (dir : Path) : List (Path × FileNode) :=
  v.files.filter fun kv => kv.1.length == dir.length + 1 && dir.isPrefixOf kv.1

/-- `view.setRootInode`. -/
def ViewDatabase.setRootInode (v : ViewDatabase) (ino : Nat) : ViewDatabase :=
  { v with rootInode := ino }

/-- Insert or replace the file node at a path. -/
def ViewDatabase.upsertFile (v : ViewDatabase) (p : Path) (n : FileNode) : ViewDatabase :=
  if v.files.any fun kv => kv.1 == p then
    { v with files := v.files.map fun kv => if kv.1 == p then (p, n) else kv }
  else
    { v with files := v.files ++ [(p, n)] }

/-- Modelled from the spec: `CookieSync::isCookiePrefix` — CookieSync
keeps "a set of cookie file path prefixes"; a path is a cookie path when
it lies under one of them. -/
def isCookiePath (cfg : Config) (p : Path) : Bool :=
  cfg.cookiePaths.any fun c => c.isPrefixOf p

/-- No file node of the view sits at a cookie path. -/
def cookieFree (cfg : Config) (v : ViewDatabase) : Bool :=
  v.files.all fun kv => !isCookiePath cfg kv.1

/-- Modelled from the spec: `Root::scheduleRecrawl` "sets
`shouldRecrawl = true` and records the reason for telemetry" (the reason
string is not modelled). -/
def scheduleRecrawl (sys : Sys) : Sys :=
  { sys with shouldRecrawl := true }

/-- Modelled from the spec: `InMemoryView::statPath` (stat.cpp is not
part of this snapshot) — "single-path stat + view reconciliation": the
path's file node is reconciled into the view at the current tick. -/
def statPath (sys : Sys) (pending : PendingChange) : Sys :=
  { sys with
    view := sys.view.upsertFile pending.path
      { fileExists := true, maybeDeleted := false, isDir := false,
        otime := sys.mostRecentTick } }

/-! ### Simple state-machine functions of iothread.cpp -/

/-- `InMemoryView::handleShouldRecrawl` (iothread.cpp lines 132-147):
reads `shouldRecrawl`; if unset, returns false.  Otherwise, unless the
root is cancelled, increments `recrawlCount` and clears `doneInitial`;
returns true either way. -/
def handleShouldRecrawl (sys : Sys) : Bool × Sys :=
  if !sys.shouldRecrawl then (false, sys)
  else if !sys.cancelled then
    (true, { sys with recrawlCount := sys.recrawlCount + 1, doneInitial := false })
  else (true, sys)

/-- 24 hours in milliseconds. -/
def hours24 : Nat := 86400000

/-- `getBiggestTimeout` (iothread.cpp lines 151-163), transcribed
condition for condition. -/
def getBiggestTimeout (cfg : Config) : Nat :=
  let bt := cfg.gcInterval
  let bt := if bt == 0 || (cfg.idleReapAge != 0 && cfg.idleReapAge < bt)
            then cfg.idleReapAge else bt
  if bt == 0 then hours24 else bt

/-- The claim's reading of `getBiggestTimeout`: the maximum of
gc_interval, idle_reap_age and 24 hours over the non-zero values (24h is
never zero, so the zeros never affect the maximum). -/
def biggestTimeoutClaimed (cfg : Config) : Nat :=
  max (max cfg.gcInterval cfg.idleReapAge) hours24

/-- The initial `IoThreadState` built by `InMemoryView::ioThread`
(iothread.cpp lines 167-169). -/
def initIoState (cfg : Config) : IoState :=
  { biggestTimeout := getBiggestTimeout cfg,
    currentTimeout := cfg.triggerSettle,
    localPending := {} }

/-- `InMemoryView::doSettleThings` (iothread.cpp lines 105-125).
`warmContentCache` and `considerAgeOut` are external no-ops here;
`root.considerReap()` is an environment answer. -/
def doSettleThings (sys : Sys) (considerReap : Bool) : Sys × Continue :=
  if !sys.doneInitial then (sys, Continue.Continue)
  else
    let sys1 := { sys with events := sys.events ++ [Event.settled] }
    if considerReap then
      ({ sys1 with events := sys1.events ++ [Event.stopWatch] }, Continue.Stop)
    else (sys1, Continue.Continue)

/-! ### processPath and the crawler (iothread.cpp lines 319-561)

The mutual recursion of `processPath` and `crawler` is bounded by a fuel
parameter (`fuel` strictly decreases on the `processPath → crawler`
edge); in the program the recursion is bounded by the depth of the
directory tree.  A result of `none` means the fuel ran out. -/

/-- The post-processing loop of the crawler (iothread.cpp lines
548-560): anything still `maybe_deleted`, and every existing
subdirectory on a recursive crawl, is re-added to the batch. -/
def postCrawl (v : ViewDatabase) (coll : PendingColl) (dir : Path)
    (recur : Bool) : PendingColl :=
  (v.childFiles dir).foldl
    (fun c kv =>
      if kv.2.fileExists && (kv.2.maybeDeleted || (kv.2.isDir && recur))
      then c.add kv.1 (if recur then { recursive := true } else {})
      else c)
    coll

variable (cfg : Config) (fs : Fs)

/-- The enumeration loop of the crawler (iothread.cpp lines 497-536):
for each directory entry, clear `maybe_deleted` on the matching file
node and route newly existing / `stat_all` / recursive children through
`processPath`.  The recursive `processPath` call is the parameter `pp`
(`processPath` at one fuel level down ties the knot below). -/
def crawlEntries (pp : Sys → PendingColl → PendingChange → Option (Sys × PendingColl)) :
    List String → Sys → PendingColl → PendingChange → Bool → Bool →
    Option (Sys × PendingColl)
  | [], sys, coll, _, _, _ => some (sys, coll)
  | name :: rest, sys, coll, pending, recur, statAll =>
    let full := pending.path ++ [name]
    match sys.view.lookupFile full with
    | some f =>
      let sys1 := { sys with view := sys.view.clearMaybeDeleted full }
      if !f.fileExists || statAll || recur then
        let fl : PendingFlags :=
          { recursive := recur || !f.fileExists,
            isDesynced := pending.flags.isDesynced }
        match pp sys1 coll ⟨full, fl⟩ with
        | none => none
        | some (sys2, coll2) =>
          crawlEntries pp rest sys2 coll2 pending recur statAll
      else
        crawlEntries pp rest sys1 coll pending recur statAll
    | none =>
      let fl : PendingFlags :=
        { recursive := true, isDesynced := pending.flags.isDesynced }
      match pp sys coll ⟨full, fl⟩ with
      | none => none
      | some (sys2, coll2) =>
        crawlEntries pp rest sys2 coll2 pending recur statAll

/-- `InMemoryView::crawler`, continued (iothread.cpp lines 447-561):
`startWatchDir`, the delete-detection marking, the enumeration loop, the
mid-enumeration read-error re-add, and the post-processing of
still-`maybe_deleted` files. -/
def crawlerOpen (pp : Sys → PendingColl → PendingChange → Option (Sys × PendingColl))
    (sys : Sys) (coll : PendingColl) (pending : PendingChange)
    (recur statAll : Bool) : Option (Sys × PendingColl) :=
  match fs.openDir pending.path with
  | none =>
    -- startWatchDir threw: handle_open_errno + markDirDeleted + return
    some ({ sys with view := sys.view.markDirDeleted pending.path }, coll)
  | some (entries, readErr) =>
    let sys1 := { sys with view := sys.view.setMaybeDeleted pending.path }
    match crawlEntries pp (entries.filter fun n => n != "." && n != "..")
        sys1 coll pending recur statAll with
    | none => none
    | some (sys2, coll2) =>
      let coll3 := if readErr then coll2.add pending.path {} else coll2
      some (sys2, postCrawl sys2.view coll3 pending.path recur)

/-- `InMemoryView::crawler` (iothread.cpp lines 389-445): flag
computation, `resolveDir`, and the root-replacement check; the rest of
the body is `crawlerOpen`. -/
def crawler (pp : Sys → PendingColl → PendingChange → Option (Sys × PendingColl))
    (sys : Sys) (coll : PendingColl) (pending : PendingChange) :
    Option (Sys × PendingColl) :=
  let recur := pending.flags.recursive
  let statAll :=
    if cfg.perFileNotifications then cfg.coalescedRename
    else pending.flags.nonrecursiveScan
  let sys1 := { sys with view := sys.view.resolveDir pending.path }
  if pending.path == cfg.rootPath then
    match fs.statInode pending.path with
    | none =>
      -- handle_open_errno + markDirDeleted + return
      some ({ sys1 with view := sys1.view.markDirDeleted pending.path }, coll)
    | some ino =>
      if ino == sys1.view.rootInode then
        crawlerOpen fs pp sys1 coll pending recur statAll
      else if sys1.view.rootInode != 0 then
        some (scheduleRecrawl sys1, coll)
      else
        crawlerOpen fs pp { sys1 with view := sys1.view.setRootInode ino }
          coll pending true statAll
  else
    crawlerOpen fs pp sys1 coll pending recur statAll

/-- `InMemoryView::processPath` (iothread.cpp lines 319-374): cookie
paths notify CookieSync when considered and are never inserted in the
view; the root path and `CRAWL_ONLY` items go to the crawler; everything
else goes to `statPath`.  The fuel bounds the crawl recursion depth (in
the program it is bounded by the depth of the directory tree); `none`
means the fuel ran out. -/
def processPath : Nat → Sys → PendingColl → PendingChange →
    Option (Sys × PendingColl)
  | fuel, sys, coll, pending =>
    if isCookiePath cfg pending.path then
      let consider :=
        if cfg.perFileNotifications then
          pending.flags.viaNotify || !sys.doneInitial
        else
          !pending.flags.isDesynced
      some
        (if consider then
          { sys with events := sys.events ++ [Event.notifyCookie pending.path] }
         else sys,
         coll)
    else if pending.path == cfg.rootPath || pending.flags.crawlOnly then
      match fuel with
      | 0 => none
      | f + 1 => crawler cfg fs (processPath f) sys coll pending
    else
      some (statPath sys pending, coll)

/-! ### processAllPending (iothread.cpp lines 258-317) -/

/-- The inner item loop of `processAllPending` (iothread.cpp lines
284-307): each item is flag-checked and routed through `processPath`
only while `stopThreads_` is unset, but the walk always continues to the
end of the stolen list.  Returns the updated state, the working
collection (which `processPath` may have grown), the desync flag, and
the list of items actually processed. -/
def processItems (dFuel : Nat) :
    List PendingChange → Sys → PendingColl → Bool → List PendingChange →
    Option (Sys × PendingColl × Bool × List PendingChange)
  | [], sys, coll, desync, processed => some (sys, coll, desync, processed)
  | p :: rest, sys, coll, desync, processed =>
    if sys.stopThreads then
      processItems dFuel rest sys coll desync processed
    else
      let desync1 := desync || (p.flags.isDesynced && p.flags.crawlOnly)
      match processPath cfg fs dFuel sys coll p with
      | none => none
      | some (sys1, coll1) =>
        processItems dFuel rest sys1 coll1 desync1 (processed ++ [p])

/-- The outer loop of `processAllPending` (iothread.cpp lines 267-308):
steal the items and syncs of the working collection (recording the syncs
on the side list `allSyncs`), process them, and repeat until the
collection stays empty.  `qFuel` bounds the number of outer
iterations. -/
def processAllPendingLoop (dFuel : Nat) :
    Nat → Sys → PendingColl → Bool → List PendingChange → List (List Nat) →
    Option (Sys × PendingColl × Bool × List PendingChange × List (List Nat))
  | qFuel, sys, coll, desync, processed, allSyncs =>
    if coll.isEmpty then some (sys, coll, desync, processed, allSyncs)
    else
      match qFuel with
      | 0 => none
      | qf + 1 =>
        let pending := coll.items
        let syncs := coll.syncs
        let allSyncs1 := if syncs.isEmpty then allSyncs else allSyncs ++ [syncs]
        match processItems cfg fs dFuel pending sys {} desync processed with
        | none => none
        | some (sys1, coll1, desync1, processed1) =>
          processAllPendingLoop dFuel qf sys1 coll1 desync1 processed1 allSyncs1

/-- `InMemoryView::processAllPending` (iothread.cpp lines 258-317).
After the working collection has emptied, the deferred sync promises are
resolved in order.  Returns the state, the (empty) collection, the
desync answer, the processed items and the resolved sync ids. -/
def processAllPending (qFuel dFuel : Nat) (sys : Sys) (coll : PendingColl) :
    Option (Sys × PendingColl × Bool × List PendingChange × List Nat) :=
  match processAllPendingLoop cfg fs dFuel qFuel sys coll false [] [] with
  | none => none
  | some (sys1, coll1, desync, processed, allSyncs) =>
    let flat := allSyncs.flatten
    some
      ({ sys1 with events := sys1.events ++ flat.map Event.syncResolved },
       coll1, desync, processed, flat)

/-! ### fullCrawl (iothread.cpp lines 42-103) -/

/-- The two-level crawl loop of `fullCrawl` (iothread.cpp lines 58-75):
sweep a batch from the shared queue into `localPending`; if that leaves
it empty, stop; otherwise run `processAllPending` and repeat.
`batches` are the successive answers of the shared queue's drains; once
they are exhausted the drains deliver nothing. -/
def fullCrawlLoop (qFuel dFuel : Nat) :
    List Batch → Sys → PendingColl → Option (Sys × PendingColl)
  | [], sys, lp =>
    if lp.isEmpty then some (sys, lp)
    else
      match processAllPending cfg fs qFuel dFuel sys lp with
      | none => none
      | some (sys1, coll1, _, _, _) => some (sys1, coll1)
  | b :: rest, sys, lp =>
    let lp1 := lp.appendBatch b
    if lp1.isEmpty then some (sys, lp1)
    else
      match processAllPending cfg fs qFuel dFuel sys lp1 with
      | none => none
      | some (sys1, coll1, _, _, _) => fullCrawlLoop qFuel dFuel rest sys1 coll1

/-- `InMemoryView::fullCrawl` (iothread.cpp lines 42-103): bump the tick
clock, seed the shared queue with `(rootPath, RECURSIVE)`, run the
two-level loop, then clear `shouldRecrawl`, fulfil the crawlState
promise if present, publish `doneInitial = true`, and abort all
outstanding cookies. -/
def fullCrawl (qFuel dFuel : Nat) (sys : Sys) (lp : PendingColl)
    (batches : List Batch) : Option (Sys × PendingColl) :=
  let sys1 := { sys with mostRecentTick := sys.mostRecentTick + 1 }
  let rootItem : PendingChange := ⟨cfg.rootPath, { recursive := true }⟩
  let batches1 :=
    match batches with
    | [] => [{ items := [rootItem] }]
    | b :: rest => { b with items := rootItem :: b.items } :: rest
  match fullCrawlLoop cfg fs qFuel dFuel batches1 sys1 lp with
  | none => none
  | some (sys2, lp2) =>
    some
      ({ sys2 with
          shouldRecrawl := false,
          doneInitial := true,
          crawlStatePromise := false,
          events := sys2.events ++
            (if sys2.crawlStatePromise then [Event.readyFulfilled] else []) ++
            [Event.abortAllCookies] },
       lp2)

/-! ### stepIoThread (iothread.cpp lines 175-256) -/

/-- The top of `stepIoThread` (iothread.cpp lines 183-188): when
`doneInitial` is unset, run a full crawl and reset `currentTimeout` to
`trigger_settle`. -/
def afterCrawl (qFuel dFuel : Nat) (sys : Sys) (st : IoState)
    (env : StepEnv) : Option (Sys × IoState) :=
  if sys.doneInitial then some (sys, st)
  else
    match fullCrawl cfg fs qFuel dFuel sys st.localPending env.crawlBatches1 with
    | none => none
    | some (sys1, lp1) =>
      some (sys1,
        { st with localPending := lp1, currentTimeout := cfg.triggerSettle })

/-- `InMemoryView::stepIoThread` (iothread.cpp lines 175-256): stop
check, full crawl when pending, wake (drain of the shared queue),
recrawl branch, settle branch (with the doubling of `currentTimeout`
capped at `biggestTimeout`), or the batch-processing stage (tick bump,
`processAllPending`, cookie abort on a desynced pass).  The optional
`notify_sleep_ms` sleep is a timing effect and is not modelled. -/
def stepIoThread (qFuel dFuel : Nat) (sys : Sys) (st : IoState)
    (env : StepEnv) : Option (Sys × IoState × Continue) :=
  if sys.stopThreads then some (sys, st, Continue.Stop)
  else
    match afterCrawl cfg fs qFuel dFuel sys st env with
    | none => none
    | some (sys1, st1) =>
      let st2 := { st1 with localPending := st1.localPending.appendBatch env.wakeBatch }
      match handleShouldRecrawl sys1 with
      | (true, sys2) =>
        match fullCrawl cfg fs qFuel dFuel sys2 st2.localPending env.crawlBatches2 with
        | none => none
        | some (sys3, lp3) =>
          some (sys3,
            { st2 with localPending := lp3, currentTimeout := cfg.triggerSettle },
            Continue.Continue)
      | (false, sys2) =>
        if !env.pinged && st2.localPending.isEmpty then
          match doSettleThings sys2 env.considerReap with
          | (sys3, Continue.Stop) => some (sys3, st2, Continue.Stop)
          | (sys3, Continue.Continue) =>
            some (sys3,
              { st2 with
                currentTimeout := min st2.biggestTimeout (st2.currentTimeout * 2) },
              Continue.Continue)
        else
          let st3 := { st2 with currentTimeout := cfg.triggerSettle }
          let sys3 := { sys2 with mostRecentTick := sys2.mostRecentTick + 1 }
          match processAllPending cfg fs qFuel dFuel sys3 st3.localPending with
          | none => none
          | some (sys4, coll4, desync, _, _) =>
            let sys5 :=
              if desync then
                { sys4 with events := sys4.events ++ [Event.abortAllCookies] }
              else sys4
            some (sys5, { st3 with localPending := coll4 }, Continue.Continue)

/-- The number of tick increments a step performs: one for the full
crawl at the top when `doneInitial` was unset, one for the recrawl
branch's full crawl, one at the head of the batch-processing stage. -/
def stepTickIncrements (qFuel dFuel : Nat) (sys : Sys) (st : IoState)
    (env : StepEnv) : Nat :=
  if sys.stopThreads then 0
  else
    match afterCrawl cfg fs qFuel dFuel sys st env with
    | none => 0
    | some (sys1, st1) =>
      (if sys.doneInitial then 0 else 1) +
      (if (handleShouldRecrawl sys1).1 then 1
       else if !env.pinged && (st1.localPending.appendBatch env.wakeBatch).isEmpty
       then 0
       else 1)

/-- The transition invariant of the recursive path-processing functions:
the core state fields are untouched, the event trace only grows by
cookie notifications, the sync barriers of the working collection are
untouched, and a view without cookie file nodes stays without cookie
file nodes. -/
def evolves (cfg : Config) (sys : Sys) (coll : PendingColl)
    (sys' : Sys) (coll' : PendingColl) : Prop :=
  sys'.core = sys.core ∧
  (∃ d, sys'.events = sys.events ++ d ∧ ∀ e ∈ d, ∃ p, e = Event.notifyCookie p) ∧
  coll'.syncs = coll.syncs ∧
  (cookieFree cfg sys.view = true → cookieFree cfg sys'.view = true)

/-- The part of `evolves` that concerns the system state only. -/
def sysEvolves (cfg : Config) (sys sys' : Sys) : Prop :=
  sys'.core = sys.core ∧
  (∃ d, sys'.events = sys.events ++ d ∧ ∀ e ∈ d, ∃ p, e = Event.notifyCookie p) ∧
  (cookieFree cfg sys.view = true → cookieFree cfg sys'.view = true)

/-- The predicate used by the claim about the desync answer: a pending
item carrying both `IS_DESYNCED` and `CRAWL_ONLY`. -/
def desyncMark (q : PendingChange) : Bool :=
  q.flags.isDesynced && q.flags.crawlOnly

/-! ## Concrete objects used by witnesses and counterexamples -/

/-- A small configuration: root `w`, cookie prefix `w/ck`, a watcher
with per-file notifications. -/
def cfgW : Config :=
  { rootPath := ["w"], perFileNotifications := true, coalescedRename := false,
    cookiePaths := [["w", "ck"]], gcInterval := 0, idleReapAge := 0,
    triggerSettle := 20 }

/-- A small filesystem: the root exists with inode 7 and one entry. -/
def fsW : Fs :=
  { statInode := fun p => if p == (["w"] : Path) then some 7 else none,
    openDir := fun p => if p == (["w"] : Path) then some (["a"], false) else none }

/-- A quiesced base state. -/
def sysW : Sys :=
  { doneInitial := true, shouldRecrawl := false, recrawlCount := 0,
    cancelled := false, stopThreads := false, crawlStatePromise := false,
    mostRecentTick := 0, view := {}, events := [] }

/-- A cookie-path change coming from the watcher. -/
def pendC1 : PendingChange := ⟨["w", "ck", "x"], { viaNotify := true }⟩

/-- A cookie-path change carrying `IS_DESYNCED | CRAWL_ONLY`. -/
def pendD : PendingChange := ⟨["w", "ck", "x"], { crawlOnly := true, isDesynced := true }⟩

/-- The state exhibiting the C5 divergence: a cancelled root with a
recrawl requested and the initial crawl published. -/
def sysC5 : Sys :=
  { doneInitial := true, shouldRecrawl := true, recrawlCount := 3,
    cancelled := true, stopThreads := false, crawlStatePromise := false,
    mostRecentTick := 5, view := {}, events := [] }

/-- A filesystem on which every stat and every opendir fails. -/
def fsC4 : Fs :=
  { statInode := fun _ => none,
    openDir := fun _ => none }

/-- A directory crawl request below the root. -/
def pendC4 : PendingChange := ⟨["w", "d"], { crawlOnly := true }⟩

/-- An environment whose wake was pinged. -/
def envP : StepEnv := { pinged := true }

/-- A small thread state for the step witnesses. -/
def stW : IoState :=
  { biggestTimeout := 7, currentTimeout := 3, localPending := {} }

/-- A quiet wake: no ping, nothing stolen, no reap. -/
def envW : StepEnv := { pinged := false }

/-! ## Supporting lemmas -/

theorem PendingColl.add_syncs (c : PendingColl) (p : Path) (fl : PendingFlags) :
    (c.add p fl).syncs = c.syncs := by
  unfold PendingColl.add
  split <;> rfl

theorem foldl_syncs (step : PendingColl → (Path × FileNode) → PendingColl)
    (hstep : ∀ c kv, (step c kv).syncs = c.syncs) :
    ∀ (l : List (Path × FileNode)) (c : PendingColl),
      (l.foldl step c).syncs = c.syncs
  | [], _ => rfl
  | kv :: rest, c => by
    rw [List.foldl_cons, foldl_syncs step hstep rest, hstep]

theorem postCrawl_syncs (v : ViewDatabase) (dir : Path) (r : Bool) (c : PendingColl) :
    (postCrawl v c dir r).syncs = c.syncs := by
  unfold postCrawl
  refine foldl_syncs _ ?_ _ _
  intro c kv
  dsimp only
  split
  · rw [PendingColl.add_syncs]
  · rfl

theorem all_map_fst (g : Path → Bool) (f : Path × FileNode → Path × FileNode)
    (hf : ∀ kv, (f kv).1 = kv.1) :
    ∀ l : List (Path × FileNode),
      ((l.map f).all fun kv => g kv.1) = (l.all fun kv => g kv.1)
  | [] => rfl
  | kv :: rest => by
    simp only [List.map_cons, List.all_cons, hf kv, all_map_fst g f hf rest]

theorem cookieFree_markDirDeleted (cfg : Config) (v : ViewDatabase) (p : Path) :
    cookieFree cfg (v.markDirDeleted p) = cookieFree cfg v :=
  all_map_fst (fun q => !isCookiePath cfg q)
    (fun kv => if p.isPrefixOf kv.1 then (kv.1, { kv.2 with fileExists := false }) else kv)
    (fun kv => by dsimp only; split <;> rfl) v.files

theorem cookieFree_setMaybeDeleted (cfg : Config) (v : ViewDatabase) (p : Path) :
    cookieFree cfg (v.setMaybeDeleted p) = cookieFree cfg v :=
  all_map_fst (fun q => !isCookiePath cfg q)
    (fun kv =>
      if kv.1.length == p.length + 1 && p.isPrefixOf kv.1 && kv.2.fileExists
      then (kv.1, { kv.2 with maybeDeleted := true }) else kv)
    (fun kv => by dsimp only; split <;> rfl) v.files

theorem cookieFree_clearMaybeDeleted (cfg : Config) (v : ViewDatabase) (p : Path) :
    cookieFree cfg (v.clearMaybeDeleted p) = cookieFree cfg v :=
  all_map_fst (fun q => !isCookiePath cfg q)
    (fun kv => if kv.1 == p then (kv.1, { kv.2 with maybeDeleted := false }) else kv)
    (fun kv => by dsimp only; split <;> rfl) v.files

theorem cookieFree_resolveDir (cfg : Config) (v : ViewDatabase) (p : Path) :
    cookieFree cfg (v.resolveDir p) = cookieFree cfg v := by
  unfold ViewDatabase.resolveDir
  split <;> rfl

theorem cookieFree_setRootInode (cfg : Config) (v : ViewDatabase) (ino : Nat) :
    cookieFree cfg (v.setRootInode ino) = cookieFree cfg v := rfl

theorem cookieFree_upsertFile (cfg : Config) (v : ViewDatabase) (p : Path)
    (n : FileNode) (hcf : cookieFree cfg v = true) (hp : isCookiePath cfg p = false) :
    cookieFree cfg (v.upsertFile p n) = true := by
  unfold ViewDatabase.upsertFile
  split
  · have h : cookieFree cfg
        { v with files := v.files.map fun kv => if kv.1 == p then (p, n) else kv } =
        cookieFree cfg v :=
      all_map_fst (fun q => !isCookiePath cfg q)
        (fun kv => if kv.1 == p then (p, n) else kv)
        (fun kv => by
          dsimp only
          split
          · next h => exact (eq_of_beq h).symm
          · rfl) v.files
    rw [h]
    exact hcf
  · unfold cookieFree at hcf ⊢
    simp only [List.all_append, List.all_cons, List.all_nil, hcf, hp,
      Bool.not_false, Bool.and_true, Bool.true_and]

theorem evolves_refl (cfg : Config) (sys : Sys) (coll : PendingColl) :
    evolves cfg sys coll sys coll :=
  ⟨rfl, ⟨[], by simp, by simp⟩, rfl, fun h => h⟩

theorem evolves_trans {cfg : Config} {sys₁ sys₂ sys₃ : Sys}
    {coll₁ coll₂ coll₃ : PendingColl}
    (h₁ : evolves cfg sys₁ coll₁ sys₂ coll₂)
    (h₂ : evolves cfg sys₂ coll₂ sys₃ coll₃) :
    evolves cfg sys₁ coll₁ sys₃ coll₃ := by
  obtain ⟨hc₁, ⟨d₁, he₁, hd₁⟩, hs₁, hv₁⟩ := h₁
  obtain ⟨hc₂, ⟨d₂, he₂, hd₂⟩, hs₂, hv₂⟩ := h₂
  refine ⟨hc₂.trans hc₁, ⟨d₁ ++ d₂, ?_, ?_⟩, hs₂.trans hs₁, fun h => hv₂ (hv₁ h)⟩
  · rw [he₂, he₁, List.append_assoc]
  · intro e he
    rcases List.mem_append.mp he with h | h
    · exact hd₁ e h
    · exact hd₂ e h

theorem evolves_view (cfg : Config) (sys : Sys) (coll : PendingColl)
    (v' : ViewDatabase)
    (hcf : cookieFree cfg sys.view = true → cookieFree cfg v' = true) :
    evolves cfg sys coll { sys with view := v' } coll :=
  ⟨rfl, ⟨[], by simp, by simp⟩, rfl, hcf⟩

theorem evolves_scheduleRecrawl (cfg : Config) (sys : Sys) (coll : PendingColl)
    (v' : ViewDatabase)
    (hcf : cookieFree cfg sys.view = true → cookieFree cfg v' = true) :
    evolves cfg sys coll (scheduleRecrawl { sys with view := v' }) coll :=
  ⟨rfl, ⟨[], by simp [scheduleRecrawl], by simp⟩, rfl, hcf⟩

theorem evolves_cookieNotify (cfg : Config) (sys : Sys) (coll : PendingColl)
    (p : Path) (b : Bool) :
    evolves cfg sys coll
      (if b then { sys with events := sys.events ++ [Event.notifyCookie p] } else sys)
      coll := by
  cases b
  · simpa using evolves_refl cfg sys coll
  · exact ⟨rfl, ⟨[Event.notifyCookie p], rfl, by simp⟩, rfl, fun h => h⟩

theorem evolves_statPath (cfg : Config) (sys : Sys) (coll : PendingColl)
    (pending : PendingChange) (h : isCookiePath cfg pending.path = false) :
    evolves cfg sys coll (statPath sys pending) coll :=
  ⟨rfl, ⟨[], by simp [statPath], by simp⟩, rfl,
   fun hcf => cookieFree_upsertFile _ _ _ _ hcf h⟩

/-- The enumeration loop preserves the transition invariant, provided
the child-processing function does. -/
theorem crawlEntries_evolves (cfg : Config)
    (pp : Sys → PendingColl → PendingChange → Option (Sys × PendingColl))
    (hpp : ∀ sys coll p sys' coll', pp sys coll p = some (sys', coll') →
      evolves cfg sys coll sys' coll') :
    ∀ names sys coll p r sa sys' coll',
      crawlEntries pp names sys coll p r sa = some (sys', coll') →
      evolves cfg sys coll sys' coll' := by
  intro names
  induction names with
  | nil =>
    intro sys coll p r sa sys' coll' h
    unfold crawlEntries at h
    simp only [Option.some.injEq, Prod.mk.injEq] at h
    obtain ⟨h1, h2⟩ := h
    subst h1; subst h2
    exact evolves_refl cfg sys coll
  | cons name rest ihn =>
    intro sys coll p r sa sys' coll' h
    unfold crawlEntries at h
    dsimp only at h
    split at h
    · -- lookupFile = some f
      split at h
      · -- newly existing / statAll / recursive: pp then the rest
        split at h
        · exact absurd h (by simp)
        · next sys2 coll2 hpc =>
          refine evolves_trans (evolves_view cfg sys coll _ ?_)
            (evolves_trans (hpp _ _ _ _ _ hpc) (ihn _ _ _ _ _ _ _ h))
          intro hcf
          rw [cookieFree_clearMaybeDeleted]
          exact hcf
      · -- skip the child, continue with the rest
        refine evolves_trans (evolves_view cfg sys coll _ ?_) (ihn _ _ _ _ _ _ _ h)
        intro hcf
        rw [cookieFree_clearMaybeDeleted]
        exact hcf
    · -- lookupFile = none
      split at h
      · exact absurd h (by simp)
      · next sys2 coll2 hpc =>
        exact evolves_trans (hpp _ _ _ _ _ hpc) (ihn _ _ _ _ _ _ _ h)

/-- The open/enumerate/post-process part of the crawler preserves the
transition invariant. -/
theorem crawlerOpen_evolves (cfg : Config) (fs : Fs)
    (pp : Sys → PendingColl → PendingChange → Option (Sys × PendingColl))
    (hpp : ∀ sys coll p sys' coll', pp sys coll p = some (sys', coll') →
      evolves cfg sys coll sys' coll') :
    ∀ sys coll p r sa sys' coll',
      crawlerOpen fs pp sys coll p r sa = some (sys', coll') →
      evolves cfg sys coll sys' coll' := by
  intro sys coll p r sa sys' coll' h
  unfold crawlerOpen at h
  split at h
  · -- startWatchDir failed
    simp only [Option.some.injEq, Prod.mk.injEq] at h
    obtain ⟨h1, h2⟩ := h
    subst h1; subst h2
    refine evolves_view cfg sys coll _ ?_
    intro hcf
    rw [cookieFree_markDirDeleted]
    exact hcf
  · -- enumeration
    dsimp only at h
    split at h
    · exact absurd h (by simp)
    · next sys2 coll2 hce =>
      simp only [Option.some.injEq, Prod.mk.injEq] at h
      obtain ⟨h1, h2⟩ := h
      subst h1; subst h2
      refine evolves_trans (evolves_view cfg sys coll _ ?_)
        (evolves_trans (crawlEntries_evolves cfg pp hpp _ _ _ _ _ _ _ _ hce) ?_)
      · intro hcf
        rw [cookieFree_setMaybeDeleted]
        exact hcf
      · refine ⟨rfl, ⟨[], by simp, by simp⟩, ?_, fun hh => hh⟩
        rw [postCrawl_syncs]
        split
        · rw [PendingColl.add_syncs]
        · rfl

/-- The crawler preserves the transition invariant. -/
theorem crawler_evolves (cfg : Config) (fs : Fs)
    (pp : Sys → PendingColl → PendingChange → Option (Sys × PendingColl))
    (hpp : ∀ sys coll p sys' coll', pp sys coll p = some (sys', coll') →
      evolves cfg sys coll sys' coll') :
    ∀ sys coll p sys' coll',
      crawler cfg fs pp sys coll p = some (sys', coll') →
      evolves cfg sys coll sys' coll' := by
  intro sys coll p sys' coll' h
  unfold crawler at h
  dsimp only at h
  split at h
  · -- root path: root replacement check
    split at h
    · -- stat of the root failed
      simp only [Option.some.injEq, Prod.mk.injEq] at h
      obtain ⟨h1, h2⟩ := h
      subst h1; subst h2
      refine evolves_view cfg sys coll _ ?_
      intro hcf
      rw [cookieFree_markDirDeleted, cookieFree_resolveDir]
      exact hcf
    · split at h
      · -- inode matches
        refine evolves_trans (evolves_view cfg sys coll _ ?_)
          (crawlerOpen_evolves cfg fs pp hpp _ _ _ _ _ _ _ h)
        intro hcf
        rw [cookieFree_resolveDir]
        exact hcf
      · split at h
        · -- root replaced: schedule recrawl
          simp only [Option.some.injEq, Prod.mk.injEq] at h
          obtain ⟨h1, h2⟩ := h
          subst h1; subst h2
          refine evolves_scheduleRecrawl cfg sys coll _ ?_
          intro hcf
          rw [cookieFree_resolveDir]
          exact hcf
        · -- first observation of the root inode
          refine evolves_trans (evolves_view cfg sys coll _ ?_)
            (crawlerOpen_evolves cfg fs pp hpp _ _ _ _ _ _ _ h)
          intro hcf
          rw [cookieFree_setRootInode, cookieFree_resolveDir]
          exact hcf
  · -- not the root
    refine evolves_trans (evolves_view cfg sys coll _ ?_)
      (crawlerOpen_evolves cfg fs pp hpp _ _ _ _ _ _ _ h)
    intro hcf
    rw [cookieFree_resolveDir]
    exact hcf

/-- `processPath` preserves the transition invariant, by induction on
the fuel. -/
theorem processPath_evolves (cfg : Config) (fs : Fs) :
    ∀ fuel sys coll p sys' coll',
      processPath cfg fs fuel sys coll p = some (sys', coll') →
      evolves cfg sys coll sys' coll' := by
  intro fuel
  induction fuel with
  | zero =>
    intro sys coll p sys' coll' h
    unfold processPath at h
    split at h
    · simp only [Option.some.injEq, Prod.mk.injEq] at h
      obtain ⟨h1, h2⟩ := h
      subst h1; subst h2
      exact evolves_cookieNotify cfg sys coll p.path _
    · split at h
      · exact absurd h (by simp)
      · next hck _ =>
        simp only [Option.some.injEq, Prod.mk.injEq] at h
        obtain ⟨h1, h2⟩ := h
        subst h1; subst h2
        exact evolves_statPath cfg sys coll p (by simpa using hck)
  | succ f ihf =>
    intro sys coll p sys' coll' h
    unfold processPath at h
    split at h
    · simp only [Option.some.injEq, Prod.mk.injEq] at h
      obtain ⟨h1, h2⟩ := h
      subst h1; subst h2
      exact evolves_cookieNotify cfg sys coll p.path _
    · split at h
      · exact crawler_evolves cfg fs (processPath cfg fs f) ihf _ _ _ _ _ h
      · next hck _ =>
        simp only [Option.some.injEq, Prod.mk.injEq] at h
        obtain ⟨h1, h2⟩ := h
        subst h1; subst h2
        exact evolves_statPath cfg sys coll p (by simpa using hck)

theorem evolves_sysEvolves {cfg : Config} {sys sys' : Sys} {coll coll' : PendingColl}
    (h : evolves cfg sys coll sys' coll') : sysEvolves cfg sys sys' :=
  ⟨h.1, h.2.1, h.2.2.2⟩

theorem sysEvolves_refl (cfg : Config) (sys : Sys) : sysEvolves cfg sys sys :=
  ⟨rfl, ⟨[], by simp, by simp⟩, fun h => h⟩

theorem sysEvolves_trans {cfg : Config} {sys₁ sys₂ sys₃ : Sys}
    (h₁ : sysEvolves cfg sys₁ sys₂) (h₂ : sysEvolves cfg sys₂ sys₃) :
    sysEvolves cfg sys₁ sys₃ := by
  obtain ⟨hc₁, ⟨d₁, he₁, hd₁⟩, hv₁⟩ := h₁
  obtain ⟨hc₂, ⟨d₂, he₂, hd₂⟩, hv₂⟩ := h₂
  refine ⟨hc₂.trans hc₁, ⟨d₁ ++ d₂, ?_, ?_⟩, fun h => hv₂ (hv₁ h)⟩
  · rw [he₂, he₁, List.append_assoc]
  · intro e he
    rcases List.mem_append.mp he with h | h
    · exact hd₁ e h
    · exact hd₂ e h

/-- The item loop of a pass: the state evolves, the processed list grows
by some suffix of this call's items, and the desync flag is the old one
or-ed with the desync marks of the newly processed items. -/
theorem processItems_spec (cfg : Config) (fs : Fs) (dFuel : Nat) :
    ∀ (items : List PendingChange) (sys : Sys) (coll : PendingColl)
      (desync : Bool) (processed : List PendingChange)
      (sys' : Sys) (coll' : PendingColl) (desync' : Bool)
      (processed' : List PendingChange),
      processItems cfg fs dFuel items sys coll desync processed =
        some (sys', coll', desync', processed') →
      evolves cfg sys coll sys' coll' ∧
      ∃ newly, processed' = processed ++ newly ∧
        desync' = (desync || newly.any desyncMark) := by
  intro items
  induction items with
  | nil =>
    intro sys coll desync processed sys' coll' desync' processed' h
    unfold processItems at h
    simp only [Option.some.injEq, Prod.mk.injEq] at h
    obtain ⟨h1, h2, h3, h4⟩ := h
    subst h1; subst h2; subst h3; subst h4
    exact ⟨evolves_refl cfg sys coll, [], by simp, by simp⟩
  | cons p rest ihp =>
    intro sys coll desync processed sys' coll' desync' processed' h
    unfold processItems at h
    split at h
    · -- stopThreads set: skip the work, keep walking the list
      exact ihp _ _ _ _ _ _ _ _ h
    · dsimp only at h
      split at h
      · exact absurd h (by simp)
      · next sys1 coll1 hpp =>
        obtain ⟨hev, newly, hproc, hdes⟩ := ihp _ _ _ _ _ _ _ _ h
        have hev0 : evolves cfg sys coll sys1 coll1 :=
          processPath_evolves cfg fs dFuel _ _ _ _ _ hpp
        refine ⟨evolves_trans hev0 hev, p :: newly, ?_, ?_⟩
        · rw [hproc]
          simp
        · rw [hdes, List.any_cons]
          unfold desyncMark
          rw [Bool.or_assoc]

/-- The outer loop of a pass: the state evolves, the final collection is
empty, the processed items grow by a suffix whose desync marks give the
desync answer, and the side list of stolen syncs grows exactly by the
initial collection's syncs (later iterations steal none, because the
path-processing functions never enqueue sync barriers). -/
theorem processAllPendingLoop_spec (cfg : Config) (fs : Fs) (dFuel : Nat) :
    ∀ (qFuel : Nat) (sys : Sys) (coll : PendingColl) (desync : Bool)
      (processed : List PendingChange) (allSyncs : List (List Nat))
      (sys' : Sys) (coll' : PendingColl) (desync' : Bool)
      (processed' : List PendingChange) (allSyncs' : List (List Nat)),
      processAllPendingLoop cfg fs dFuel qFuel sys coll desync processed allSyncs =
        some (sys', coll', desync', processed', allSyncs') →
      sysEvolves cfg sys sys' ∧
      coll'.isEmpty = true ∧
      (∃ newly, processed' = processed ++ newly ∧
        desync' = (desync || newly.any desyncMark)) ∧
      allSyncs' = allSyncs ++ (if coll.syncs.isEmpty then [] else [coll.syncs]) := by
  intro qFuel
  induction qFuel with
  | zero =>
    intro sys coll desync processed allSyncs sys' coll' desync' processed' allSyncs' h
    unfold processAllPendingLoop at h
    split at h
    · next hemp =>
      simp only [Option.some.injEq, Prod.mk.injEq] at h
      obtain ⟨h1, h2, h3, h4, h5⟩ := h
      subst h1; subst h2; subst h3; subst h4; subst h5
      refine ⟨sysEvolves_refl cfg sys, hemp, ⟨[], by simp, by simp⟩, ?_⟩
      have hs : coll.syncs.isEmpty = true := by
        unfold PendingColl.isEmpty at hemp
        simp only [Bool.and_eq_true] at hemp
        exact hemp.2
      rw [hs]
      simp
    · exact absurd h (by simp)
  | succ qf ihq =>
    intro sys coll desync processed allSyncs sys' coll' desync' processed' allSyncs' h
    unfold processAllPendingLoop at h
    split at h
    · next hemp =>
      simp only [Option.some.injEq, Prod.mk.injEq] at h
      obtain ⟨h1, h2, h3, h4, h5⟩ := h
      subst h1; subst h2; subst h3; subst h4; subst h5
      refine ⟨sysEvolves_refl cfg sys, hemp, ⟨[], by simp, by simp⟩, ?_⟩
      have hs : coll.syncs.isEmpty = true := by
        unfold PendingColl.isEmpty at hemp
        simp only [Bool.and_eq_true] at hemp
        exact hemp.2
      rw [hs]
      simp
    · dsimp only at h
      split at h
      · exact absurd h (by simp)
      · next sys1 coll1 desync1 processed1 hpi =>
        obtain ⟨hev1, newly1, hproc1, hdes1⟩ :=
          processItems_spec cfg fs dFuel _ _ _ _ _ _ _ _ _ hpi
        obtain ⟨hev2, hemp2, ⟨newly2, hproc2, hdes2⟩, hsy2⟩ :=
          ihq _ _ _ _ _ _ _ _ _ _ h
        have hc1 : coll1.syncs = [] := hev1.2.2.1
        refine ⟨sysEvolves_trans (evolves_sysEvolves hev1) hev2, hemp2,
          ⟨newly1 ++ newly2, ?_, ?_⟩, ?_⟩
        · rw [hproc2, hproc1, List.append_assoc]
        · rw [hdes2, hdes1, List.any_append, Bool.or_assoc]
        · rw [hsy2, hc1]
          by_cases hc : coll.syncs.isEmpty = true <;> simp [hc]

/-- `processAllPending`: the core fields are untouched, the trace grows
by processing events (cookie notifications only) followed by the
resolution of exactly the initial collection's sync barriers, the final
collection is empty, and the desync answer is exactly "some processed
item carried IS_DESYNCED and CRAWL_ONLY". -/
theorem processAllPending_spec (cfg : Config) (fs : Fs) (qFuel dFuel : Nat)
    (sys : Sys) (coll : PendingColl) (sys' : Sys) (coll' : PendingColl)
    (desync : Bool) (processed : List PendingChange) (resolved : List Nat)
    (h : processAllPending cfg fs qFuel dFuel sys coll =
      some (sys', coll', desync, processed, resolved)) :
    sys'.core = sys.core ∧
    (∃ body, sys'.events = sys.events ++ body ++ resolved.map Event.syncResolved ∧
      ∀ e ∈ body, ∃ p, e = Event.notifyCookie p) ∧
    resolved = coll.syncs ∧
    coll'.isEmpty = true ∧
    desync = processed.any desyncMark ∧
    (cookieFree cfg sys.view = true → cookieFree cfg sys'.view = true) := by
  unfold processAllPending at h
  split at h
  · exact absurd h (by simp)
  · next sys1 coll1 desync1 processed1 allSyncs1 hloop =>
    obtain ⟨⟨hcore, ⟨d, hev, hd⟩, hcf⟩, hemp, ⟨newly, hproc, hdes⟩, hsy⟩ :=
      processAllPendingLoop_spec cfg fs dFuel _ _ _ _ _ _ _ _ _ _ _ hloop
    simp only [Option.some.injEq, Prod.mk.injEq] at h
    obtain ⟨h1, h2, h3, h4, h5⟩ := h
    subst h1; subst h2; subst h3; subst h4; subst h5
    have hflat : allSyncs1.flatten = coll.syncs := by
      rw [hsy]
      simp only [List.nil_append]
      split
      · next hs =>
        simp only [List.flatten_nil]
        exact (List.isEmpty_iff.mp hs).symm
      · simp
    refine ⟨hcore, ⟨d, ?_, hd⟩, hflat, hemp, ?_, hcf⟩
    · rw [hev]
    · rw [hdes, hproc]
      simp

theorem core_fields {s t : Sys} (h : s.core = t.core) :
    s.doneInitial = t.doneInitial ∧ s.recrawlCount = t.recrawlCount ∧
    s.cancelled = t.cancelled ∧ s.stopThreads = t.stopThreads ∧
    s.crawlStatePromise = t.crawlStatePromise ∧
    s.mostRecentTick = t.mostRecentTick := by
  unfold Sys.core at h
  simp only [Prod.mk.injEq] at h
  exact h

theorem settleFree_trans {sys₁ sys₂ sys₃ : Sys}
    (h₁ : ∃ d, sys₂.events = sys₁.events ++ d ∧ ∀ e ∈ d, e ≠ Event.settled)
    (h₂ : ∃ d, sys₃.events = sys₂.events ++ d ∧ ∀ e ∈ d, e ≠ Event.settled) :
    ∃ d, sys₃.events = sys₁.events ++ d ∧ ∀ e ∈ d, e ≠ Event.settled := by
  obtain ⟨d₁, he₁, hd₁⟩ := h₁
  obtain ⟨d₂, he₂, hd₂⟩ := h₂
  refine ⟨d₁ ++ d₂, ?_, ?_⟩
  · rw [he₂, he₁, List.append_assoc]
  · intro e he
    rcases List.mem_append.mp he with h | h
    · exact hd₁ e h
    · exact hd₂ e h

/-- The event delta of a pass never contains a settled notification. -/
theorem processAllPending_settleFree (cfg : Config) (fs : Fs) (qFuel dFuel : Nat)
    (sys : Sys) (coll : PendingColl) (sys' : Sys) (coll' : PendingColl)
    (desync : Bool) (processed : List PendingChange) (resolved : List Nat)
    (h : processAllPending cfg fs qFuel dFuel sys coll =
      some (sys', coll', desync, processed, resolved)) :
    ∃ d, sys'.events = sys.events ++ d ∧ ∀ e ∈ d, e ≠ Event.settled := by
  obtain ⟨_, ⟨body, hev, hb⟩, _⟩ :=
    processAllPending_spec cfg fs qFuel dFuel sys coll sys' coll' desync processed resolved h
  refine ⟨body ++ resolved.map Event.syncResolved, ?_, ?_⟩
  · rw [hev, List.append_assoc]
  · intro e he
    rcases List.mem_append.mp he with h' | h'
    · obtain ⟨p, rfl⟩ := hb e h'
      simp
    · obtain ⟨id, _, rfl⟩ := List.mem_map.mp h'
      simp

/-- The two-level crawl loop: core fields preserved, no settled
notification emitted, cookie freeness of the view preserved. -/
theorem fullCrawlLoop_spec (cfg : Config) (fs : Fs) (qf df : Nat) :
    ∀ (batches : List Batch) (sys : Sys) (lp : PendingColl)
      (sys2 : Sys) (lp2 : PendingColl),
      fullCrawlLoop cfg fs qf df batches sys lp = some (sys2, lp2) →
      sys2.core = sys.core ∧
      (∃ d, sys2.events = sys.events ++ d ∧ ∀ e ∈ d, e ≠ Event.settled) ∧
      (cookieFree cfg sys.view = true → cookieFree cfg sys2.view = true) := by
  intro batches
  induction batches with
  | nil =>
    intro sys lp sys2 lp2 h
    unfold fullCrawlLoop at h
    split at h
    · simp only [Option.some.injEq, Prod.mk.injEq] at h
      obtain ⟨h1, h2⟩ := h
      subst h1; subst h2
      exact ⟨rfl, ⟨[], by simp, by simp⟩, fun hh => hh⟩
    · split at h
      · exact absurd h (by simp)
      · next sys1 coll1 d1 p1 r1 hpap =>
        simp only [Option.some.injEq, Prod.mk.injEq] at h
        obtain ⟨h1, h2⟩ := h
        subst h1; subst h2
        obtain ⟨hcore, hevb, _, _, _, hcf⟩ :=
          processAllPending_spec cfg fs qf df _ _ _ _ _ _ _ hpap
        exact ⟨hcore,
          processAllPending_settleFree cfg fs qf df _ _ _ _ _ _ _ hpap, hcf⟩
  | cons b rest ihb =>
    intro sys lp sys2 lp2 h
    unfold fullCrawlLoop at h
    dsimp only at h
    split at h
    · simp only [Option.some.injEq, Prod.mk.injEq] at h
      obtain ⟨h1, h2⟩ := h
      subst h1; subst h2
      exact ⟨rfl, ⟨[], by simp, by simp⟩, fun hh => hh⟩
    · split at h
      · exact absurd h (by simp)
      · next sys1 coll1 d1 p1 r1 hpap =>
        obtain ⟨hcore1, _, _, _, _, hcf1⟩ :=
          processAllPending_spec cfg fs qf df _ _ _ _ _ _ _ hpap
        obtain ⟨hcore2, hev2, hcf2⟩ := ihb _ _ _ _ h
        exact ⟨hcore2.trans hcore1,
          settleFree_trans
            (processAllPending_settleFree cfg fs qf df _ _ _ _ _ _ _ hpap) hev2,
          fun hh => hcf2 (hcf1 hh)⟩

/-- `fullCrawl`: publishes `doneInitial`, clears `shouldRecrawl` and the
crawlState promise, bumps the tick clock exactly once, leaves the other
core fields alone, never emits a settled notification, and keeps the
view free of cookie file nodes. -/
theorem fullCrawl_spec (cfg : Config) (fs : Fs) (qf df : Nat) (sys : Sys)
    (lp : PendingColl) (batches : List Batch) (sys2 : Sys) (lp2 : PendingColl)
    (h : fullCrawl cfg fs qf df sys lp batches = some (sys2, lp2)) :
    sys2.doneInitial = true ∧ sys2.shouldRecrawl = false ∧
    sys2.crawlStatePromise = false ∧
    sys2.mostRecentTick = sys.mostRecentTick + 1 ∧
    sys2.stopThreads = sys.stopThreads ∧
    sys2.cancelled = sys.cancelled ∧
    sys2.recrawlCount = sys.recrawlCount ∧
    (∃ d, sys2.events = sys.events ++ d ∧ ∀ e ∈ d, e ≠ Event.settled) ∧
    (cookieFree cfg sys.view = true → cookieFree cfg sys2.view = true) := by
  unfold fullCrawl at h
  dsimp only at h
  split at h
  · exact absurd h (by simp)
  · next sysL lpL hloop =>
    obtain ⟨hcore, ⟨d, hev, hd⟩, hcf⟩ := fullCrawlLoop_spec cfg fs qf df _ _ _ _ _ hloop
    obtain ⟨_, c2, c3, c4, c5, c6⟩ := core_fields hcore
    simp only [Option.some.injEq, Prod.mk.injEq] at h
    obtain ⟨h1, h2⟩ := h
    subst h1; subst h2
    refine ⟨rfl, rfl, rfl, c6, c4, c3, c2, ?_, hcf⟩
    refine ⟨d ++ ((if sysL.crawlStatePromise then [Event.readyFulfilled] else []) ++
      [Event.abortAllCookies]), ?_, ?_⟩
    · show sysL.events ++ _ ++ _ = _
      rw [hev]
      show sys.events ++ d ++ _ ++ _ = _
      rw [List.append_assoc, List.append_assoc]
    · intro e he
      rcases List.mem_append.mp he with h' | h'
      · exact hd e h'
      · rcases List.mem_append.mp h' with h'' | h''
        · split at h''
          · simp only [List.mem_singleton] at h''
            subst h''
            simp
          · simp at h''
        · simp only [List.mem_singleton] at h''
          subst h''
          simp

/-- Exhaustive description of `handleShouldRecrawl`. -/
theorem handleShouldRecrawl_cases (sys : Sys) :
    (sys.shouldRecrawl = false ∧ handleShouldRecrawl sys = (false, sys)) ∨
    (sys.shouldRecrawl = true ∧ sys.cancelled = false ∧
      handleShouldRecrawl sys =
        (true, { sys with recrawlCount := sys.recrawlCount + 1,
                          doneInitial := false })) ∨
    (sys.shouldRecrawl = true ∧ sys.cancelled = true ∧
      handleShouldRecrawl sys = (true, sys)) := by
  unfold handleShouldRecrawl
  by_cases h1 : sys.shouldRecrawl <;> by_cases h2 : sys.cancelled <;> simp [h1, h2]

/-- Exhaustive description of `doSettleThings`. -/
theorem doSettleThings_cases (sys : Sys) (cr : Bool) :
    (sys.doneInitial = false ∧ doSettleThings sys cr = (sys, Continue.Continue)) ∨
    (sys.doneInitial = true ∧ cr = false ∧
      doSettleThings sys cr =
        ({ sys with events := sys.events ++ [Event.settled] }, Continue.Continue)) ∨
    (sys.doneInitial = true ∧ cr = true ∧
      doSettleThings sys cr =
        ({ sys with events := (sys.events ++ [Event.settled]) ++ [Event.stopWatch] },
          Continue.Stop)) := by
  unfold doSettleThings
  by_cases h1 : sys.doneInitial <;> cases cr <;> simp [h1]

/-- The crawl phase at the top of a step: afterwards `doneInitial` holds,
the non-crawl core fields are untouched, the tick went up by one exactly
when a crawl ran, no settled notification was emitted, and
`currentTimeout` was reset when a crawl ran. -/
theorem afterCrawl_spec (cfg : Config) (fs : Fs) (qf df : Nat) (sys : Sys)
    (st : IoState) (env : StepEnv) (s1 : Sys) (st1 : IoState)
    (h : afterCrawl cfg fs qf df sys st env = some (s1, st1)) :
    s1.doneInitial = true ∧
    s1.stopThreads = sys.stopThreads ∧
    s1.cancelled = sys.cancelled ∧
    s1.recrawlCount = sys.recrawlCount ∧
    s1.mostRecentTick = sys.mostRecentTick + (if sys.doneInitial then 0 else 1) ∧
    (∃ d, s1.events = sys.events ++ d ∧ ∀ e ∈ d, e ≠ Event.settled) ∧
    (cookieFree cfg sys.view = true → cookieFree cfg s1.view = true) ∧
    st1.biggestTimeout = st.biggestTimeout ∧
    (sys.doneInitial = false → st1.currentTimeout = cfg.triggerSettle) ∧
    (sys.doneInitial = true → s1 = sys ∧ st1 = st) := by
  unfold afterCrawl at h
  split at h
  · next hdi =>
    simp only [Option.some.injEq, Prod.mk.injEq] at h
    obtain ⟨h1, h2⟩ := h
    subst h1; subst h2
    refine ⟨hdi, rfl, rfl, rfl, by simp [hdi], ⟨[], by simp, by simp⟩,
      fun x => x, rfl, ?_, fun _ => ⟨rfl, rfl⟩⟩
    intro hf
    rw [hdi] at hf
    exact absurd hf (by simp)
  · next hdi =>
    have hdi' : sys.doneInitial = false := by
      cases hd : sys.doneInitial
      · rfl
      · exact absurd hd hdi
    split at h
    · exact absurd h (by simp)
    · next sysC lpC hfc =>
      simp only [Option.some.injEq, Prod.mk.injEq] at h
      obtain ⟨h1, h2⟩ := h
      subst h1; subst h2
      obtain ⟨f1, f2, f3, f4, f5, f6, f7, f8, f9⟩ :=
        fullCrawl_spec cfg fs qf df sys st.localPending env.crawlBatches1 _ _ hfc
      refine ⟨f1, f5, f6, f7, by simp [hdi', f4], f8, f9, rfl, fun _ => rfl, ?_⟩
      intro ht
      rw [ht] at hdi'
      exact absurd hdi' (by simp)

/-! ## Claims -/

/-- C1: for every pending change whose path is a cookie prefix of the
root, `processPath` notifies CookieSync exactly when the cookie is
considered — watchers with per-file notifications: iff the change
carries VIA_NOTIFY or `doneInitial` is false; watchers without per-file
notifications: iff the change does not carry IS_DESYNCED — and it
returns without touching the view or the batch; moreover the whole
recursion of `processPath` preserves a view free of cookie file nodes,
so cookie paths never appear as file nodes in the view. -/
theorem c1_processPath_cookie (cfg : Config) (fs : Fs) :
    (∀ fuel sys coll pending sys' coll',
        isCookiePath cfg pending.path = true →
        processPath cfg fs fuel sys coll pending = some (sys', coll') →
        coll' = coll ∧ sys'.view = sys.view ∧
        sys' = (if (if cfg.perFileNotifications then
                      pending.flags.viaNotify || !sys.doneInitial
                    else !pending.flags.isDesynced) = true
                then { sys with events := sys.events ++ [Event.notifyCookie pending.path] }
                else sys)) ∧
    (∀ fuel sys coll pending sys' coll',
        processPath cfg fs fuel sys coll pending = some (sys', coll') →
        cookieFree cfg sys.view = true → cookieFree cfg sys'.view = true) := by
  constructor
  · intro fuel sys coll pending sys' coll' hck h
    unfold processPath at h
    simp only [hck, if_true] at h
    simp only [Option.some.injEq, Prod.mk.injEq] at h
    obtain ⟨h1, h2⟩ := h
    subst h1; subst h2
    refine ⟨rfl, ?_, rfl⟩
    by_cases hc : (if cfg.perFileNotifications then
        pending.flags.viaNotify || !sys.doneInitial
      else !pending.flags.isDesynced) = true
    · rw [if_pos hc]
    · rw [if_neg hc]
  · intro fuel sys coll pending sys' coll' h hcf
    exact (processPath_evolves cfg fs fuel _ _ _ _ _ h).2.2.2 hcf

/-- C1 witness: a cookie file change arriving VIA_NOTIFY on a per-file
watcher with `doneInitial` set is considered, leaves the batch and the
view untouched. -/
theorem c1_witness :
    ({} : PendingColl) = ({} : PendingColl) ∧
    ({ sysW with events := [Event.notifyCookie ["w", "ck", "x"]] } : Sys).view = sysW.view ∧
    ({ sysW with events := [Event.notifyCookie ["w", "ck", "x"]] } : Sys) =
      (if (if cfgW.perFileNotifications then
             pendC1.flags.viaNotify || !sysW.doneInitial
           else !pendC1.flags.isDesynced) = true
       then { sysW with events := sysW.events ++ [Event.notifyCookie pendC1.path] }
       else sysW) :=
  (c1_processPath_cookie cfgW fsW).1 3 sysW {} pendC1
    { sysW with events := [Event.notifyCookie ["w", "ck", "x"]] } {}
    (by decide) (by decide)

/-- C3 counterexample: with `gc_interval = 1` ms and `idle_reap_age = 0`
the code computes 1 ms, while the claimed maximum of the non-zero values
among gc_interval, idle_reap_age and 24h would be 24 hours. -/
theorem c3_counterexample :
    getBiggestTimeout { gcInterval := 1 } = 1 ∧
    biggestTimeoutClaimed { gcInterval := 1 } = 86400000 ∧
    (1 : Nat) ≠ 86400000 := by
  refine ⟨by decide, by decide, by decide⟩

/-- C3 (amended): at I/O thread start, `biggestTimeout` is the SMALLEST
of the non-zero values among gc_interval and idle_reap_age — 24 hours
when both are zero — and `currentTimeout` is initialized to
trigger_settle. -/
theorem c3_amended_timeouts (cfg : Config) :
    getBiggestTimeout cfg =
      (if cfg.gcInterval = 0 ∧ cfg.idleReapAge = 0 then hours24
       else if cfg.gcInterval = 0 then cfg.idleReapAge
       else if cfg.idleReapAge = 0 then cfg.gcInterval
       else min cfg.gcInterval cfg.idleReapAge) ∧
    (initIoState cfg).currentTimeout = cfg.triggerSettle := by
  constructor
  · unfold getBiggestTimeout hours24
    dsimp only
    simp only [beq_iff_eq, bne_iff_ne, Bool.or_eq_true, Bool.and_eq_true,
      decide_eq_true_eq, ne_eq, Nat.min_def]
    split_ifs <;> omega
  · rfl

/-- C5 counterexample: with `shouldRecrawl` set and the root cancelled,
`handleShouldRecrawl` returns true but `doneInitial` stays true — the
cancelled state DOES suppress the clearing, refuting the claim. -/
theorem c5_counterexample :
    sysC5.shouldRecrawl = true ∧ sysC5.cancelled = true ∧
    sysC5.doneInitial = true ∧
    (handleShouldRecrawl sysC5).1 = true ∧
    (handleShouldRecrawl sysC5).2.doneInitial = true := by
  decide

/-- C5 (amended): when `handleShouldRecrawl` observes `shouldRecrawl`
set on a cancelled root it still returns true, but leaves the state
untouched: `doneInitial` is not cleared and `recrawlCount` is not
incremented. -/
theorem c5_amended_cancelled_recrawl (sys : Sys)
    (h1 : sys.shouldRecrawl = true) (h2 : sys.cancelled = true) :
    handleShouldRecrawl sys = (true, sys) := by
  unfold handleShouldRecrawl
  simp [h1, h2]

/-- C5 witness. -/
theorem c5_witness : handleShouldRecrawl sysC5 = (true, sysC5) :=
  c5_amended_cancelled_recrawl sysC5 (by decide) (by decide)

/-- C6: `processAllPending` returns Desynced iff some processed item of
the pass carried both IS_DESYNCED and CRAWL_ONLY; and when the step
receives Desynced from `processAllPending`, it aborts all outstanding
cookies (the abort event is appended to the trace). -/
theorem c6_desync (cfg : Config) (fs : Fs) :
    (∀ qf df sys coll sys' coll' desync processed resolved,
        processAllPending cfg fs qf df sys coll =
          some (sys', coll', desync, processed, resolved) →
        desync = processed.any desyncMark) ∧
    (∀ qf df sys st env s1 st1 sysP collP processed resolved,
        sys.stopThreads = false →
        afterCrawl cfg fs qf df sys st env = some (s1, st1) →
        (handleShouldRecrawl s1).1 = false →
        ((!env.pinged && (st1.localPending.appendBatch env.wakeBatch).isEmpty) = false) →
        processAllPending cfg fs qf df
          { s1 with mostRecentTick := s1.mostRecentTick + 1 }
          (st1.localPending.appendBatch env.wakeBatch) =
          some (sysP, collP, true, processed, resolved) →
        stepIoThread cfg fs qf df sys st env =
          some ({ sysP with events := sysP.events ++ [Event.abortAllCookies] },
            { st1 with currentTimeout := cfg.triggerSettle,
                       localPending := collP },
            Continue.Continue)) := by
  constructor
  · intro qf df sys coll sys' coll' desync processed resolved h
    exact (processAllPending_spec cfg fs qf df sys coll sys' coll'
      desync processed resolved h).2.2.2.2.1
  · intro qf df sys st env s1 st1 sysP collP processed resolved hstop hac hrc hset hpap
    have hr : handleShouldRecrawl s1 = (false, s1) := by
      rcases handleShouldRecrawl_cases s1 with ⟨_, he⟩ | ⟨_, _, he⟩ | ⟨_, _, he⟩
      · exact he
      · rw [he] at hrc
        exact absurd hrc (by simp)
      · rw [he] at hrc
        exact absurd hrc (by simp)
    unfold stepIoThread
    simp only [hstop, Bool.false_eq_true, if_false, hac, hr, hset, hpap]
    rfl

/-- C6 witness: a cookie-path item carrying `IS_DESYNCED | CRAWL_ONLY`
makes the pass Desynced. -/
theorem c6_witness : (true : Bool) = [pendD].any desyncMark :=
  (c6_desync cfgW fsW).1 2 2 sysW ⟨[pendD], []⟩ sysW ⟨[], []⟩ true [pendD] []
    (by decide)

/-- C7: every sync barrier stolen from the batch during a pass is
resolved only after the batch (including everything appended during the
pass) has fully emptied: the trace grows by the processing events, none
of which resolves a sync, followed by the resolution of exactly the
initial batch's sync barriers, and the final batch is empty. -/
theorem c7_sync_resolution (cfg : Config) (fs : Fs) :
    ∀ qf df sys coll sys' coll' desync processed resolved,
      processAllPending cfg fs qf df sys coll =
        some (sys', coll', desync, processed, resolved) →
      resolved = coll.syncs ∧
      coll'.isEmpty = true ∧
      ∃ body, sys'.events = sys.events ++ body ++ resolved.map Event.syncResolved ∧
        ∀ id, Event.syncResolved id ∉ body := by
  intro qf df sys coll sys' coll' desync processed resolved h
  obtain ⟨_, ⟨body, hev, hb⟩, hres, hemp, _, _⟩ :=
    processAllPending_spec cfg fs qf df sys coll sys' coll' desync processed resolved h
  refine ⟨hres, hemp, body, hev, ?_⟩
  intro id hid
  obtain ⟨p, hp⟩ := hb _ hid
  exact absurd hp (by simp)

/-- C7 witness: a batch holding only the sync barriers 4 and 9 resolves
exactly them, after processing, leaving the batch empty. -/
theorem c7_witness :
    ([4, 9] : List Nat) = (⟨[], [4, 9]⟩ : PendingColl).syncs ∧
    (⟨[], []⟩ : PendingColl).isEmpty = true ∧
    ∃ body, ({ sysW with events := [Event.syncResolved 4, Event.syncResolved 9] } : Sys).events =
        sysW.events ++ body ++ ([4, 9] : List Nat).map Event.syncResolved ∧
      ∀ id, Event.syncResolved id ∉ body :=
  c7_sync_resolution cfgW fsW 2 2 sysW ⟨[], [4, 9]⟩
    { sysW with events := [Event.syncResolved 4, Event.syncResolved 9] }
    ⟨[], []⟩ false [] [4, 9] (by decide)

/-- C4 counterexample: a startWatchDir (opendir) failure marks the
directory deleted but does NOT re-add its path to the pending batch —
the output batch is empty — refuting the claim that every transient
I/O failure both tombstones the directory and re-adds it. -/
theorem c4_counterexample :
    processPath cfgW fsC4 1 sysW {} pendC4 =
      some ({ sysW with view :=
        { dirs := [["w", "d"]], deletedDirs := [["w", "d"]],
          files := [], rootInode := 0 } }, ({} : PendingColl)) ∧
    ({} : PendingColl).items = [] := by
  exact ⟨by decide, rfl⟩

/-- C4 (amended): opendir (startWatchDir) failures and stat failures on
the root mark the directory deleted and return WITHOUT re-adding its
path to the pending batch; a readdir failure mid-enumeration re-adds
the directory's path to the batch with empty flags (without tombstoning
the directory) and still runs the post-processing; in all three cases
the crawler returns normally, so the failure is never fatal to the I/O
thread. -/
theorem c4_amended_crawler_errors (cfg : Config) (fs : Fs)
    (pp : Sys → PendingColl → PendingChange → Option (Sys × PendingColl)) :
    (∀ sys coll pending r sa,
        fs.openDir pending.path = none →
        crawlerOpen fs pp sys coll pending r sa =
          some ({ sys with view := sys.view.markDirDeleted pending.path }, coll)) ∧
    (∀ sys coll pending,
        (pending.path == cfg.rootPath) = true →
        fs.statInode pending.path = none →
        crawler cfg fs pp sys coll pending =
          some ({ sys with
            view := (sys.view.resolveDir pending.path).markDirDeleted pending.path },
            coll)) ∧
    (∀ sys coll pending r sa entries sys2 coll2,
        fs.openDir pending.path = some (entries, true) →
        crawlEntries pp (entries.filter fun n => n != "." && n != "..")
          { sys with view := sys.view.setMaybeDeleted pending.path }
          coll pending r sa = some (sys2, coll2) →
        crawlerOpen fs pp sys coll pending r sa =
          some (sys2, postCrawl sys2.view (coll2.add pending.path {}) pending.path r)) := by
  refine ⟨?_, ?_, ?_⟩
  · intro sys coll pending r sa hopen
    unfold crawlerOpen
    rw [hopen]
  · intro sys coll pending hroot hstat
    unfold crawler
    dsimp only
    rw [if_pos hroot, hstat]
  · intro sys coll pending r sa entries sys2 coll2 hopen hce
    unfold crawlerOpen
    rw [hopen]
    dsimp only
    rw [hce]
    rfl

/-- C4 witness for the amended opendir case. -/
theorem c4_witness :
    crawlerOpen fsC4 (processPath cfgW fsC4 0) sysW {} pendC4 false false =
      some ({ sysW with view := sysW.view.markDirDeleted pendC4.path }, {}) :=
  (c4_amended_crawler_errors cfgW fsC4 (processPath cfgW fsC4 0)).1
    sysW {} pendC4 false false rfl

/-- C9: the settle/backoff discipline of `currentTimeout`.  (i) A settle
iteration that continues doubles `currentTimeout`, capped at
`biggestTimeout`.  (ii) An iteration that delivers pending items resets
it to `trigger_settle`.  (iii) So does the recrawl branch.  (iv) So does
the initial full crawl at the top of a step. -/
theorem c9_timeout_backoff (cfg : Config) (fs : Fs) :
    (∀ qf df sys st env s1 st1 sys3,
        sys.stopThreads = false →
        afterCrawl cfg fs qf df sys st env = some (s1, st1) →
        (handleShouldRecrawl s1).1 = false →
        ((!env.pinged && (st1.localPending.appendBatch env.wakeBatch).isEmpty) = true) →
        doSettleThings s1 env.considerReap = (sys3, Continue.Continue) →
        stepIoThread cfg fs qf df sys st env =
          some (sys3,
            { st1 with
              localPending := st1.localPending.appendBatch env.wakeBatch,
              currentTimeout := min st1.biggestTimeout (st1.currentTimeout * 2) },
            Continue.Continue)) ∧
    (∀ qf df sys st env s1 st1 sysP collP desync processed resolved,
        sys.stopThreads = false →
        afterCrawl cfg fs qf df sys st env = some (s1, st1) →
        (handleShouldRecrawl s1).1 = false →
        ((!env.pinged && (st1.localPending.appendBatch env.wakeBatch).isEmpty) = false) →
        processAllPending cfg fs qf df
          { s1 with mostRecentTick := s1.mostRecentTick + 1 }
          (st1.localPending.appendBatch env.wakeBatch) =
          some (sysP, collP, desync, processed, resolved) →
        stepIoThread cfg fs qf df sys st env =
          some ((if desync then
                  { sysP with events := sysP.events ++ [Event.abortAllCookies] }
                 else sysP),
            { st1 with currentTimeout := cfg.triggerSettle,
                       localPending := collP },
            Continue.Continue)) ∧
    (∀ qf df sys st env s1 st1 sys2 sys3 lp3,
        sys.stopThreads = false →
        afterCrawl cfg fs qf df sys st env = some (s1, st1) →
        handleShouldRecrawl s1 = (true, sys2) →
        fullCrawl cfg fs qf df sys2 (st1.localPending.appendBatch env.wakeBatch)
          env.crawlBatches2 = some (sys3, lp3) →
        stepIoThread cfg fs qf df sys st env =
          some (sys3,
            { st1 with localPending := lp3, currentTimeout := cfg.triggerSettle },
            Continue.Continue)) ∧
    (∀ qf df sys st env s1 st1,
        sys.doneInitial = false →
        afterCrawl cfg fs qf df sys st env = some (s1, st1) →
        st1.currentTimeout = cfg.triggerSettle) := by
  refine ⟨?_, ?_, ?_, ?_⟩
  · intro qf df sys st env s1 st1 sys3 hstop hac hrc hset hds
    have hr : handleShouldRecrawl s1 = (false, s1) := by
      rcases handleShouldRecrawl_cases s1 with ⟨_, he⟩ | ⟨_, _, he⟩ | ⟨_, _, he⟩
      · exact he
      · rw [he] at hrc
        exact absurd hrc (by simp)
      · rw [he] at hrc
        exact absurd hrc (by simp)
    unfold stepIoThread
    simp only [hstop, Bool.false_eq_true, if_false, hac, hr, hset, hds]
    rfl
  · intro qf df sys st env s1 st1 sysP collP desync processed resolved
      hstop hac hrc hset hpap
    have hr : handleShouldRecrawl s1 = (false, s1) := by
      rcases handleShouldRecrawl_cases s1 with ⟨_, he⟩ | ⟨_, _, he⟩ | ⟨_, _, he⟩
      · exact he
      · rw [he] at hrc
        exact absurd hrc (by simp)
      · rw [he] at hrc
        exact absurd hrc (by simp)
    unfold stepIoThread
    simp only [hstop, Bool.false_eq_true, if_false, hac, hr, hset, hpap]
  · intro qf df sys st env s1 st1 sys2 sys3 lp3 hstop hac hhr hfc
    unfold stepIoThread
    simp only [hstop, Bool.false_eq_true, if_false, hac, hhr, hfc]
  · intro qf df sys st env s1 st1 hdi hac
    exact (afterCrawl_spec cfg fs qf df sys st env s1 st1 hac).2.2.2.2.2.2.2.2.1 hdi

/-- C10: whenever the step reaches the batch-processing stage (stop flag
unset, crawl phase done, `handleShouldRecrawl` returned false, and the
wake was pinged or the local batch is non-empty), `doneInitial` is true,
so the w_check assertion there can never fail: the crawl phase at the
top of the step publishes `doneInitial = true`, and only a true return
of `handleShouldRecrawl` — which exits the step — clears it. -/
theorem c10_batch_stage_done_initial (cfg : Config) (fs : Fs) :
    ∀ qf df sys st env s1 st1 sys2,
      sys.stopThreads = false →
      afterCrawl cfg fs qf df sys st env = some (s1, st1) →
      handleShouldRecrawl s1 = (false, sys2) →
      ((!env.pinged && (st1.localPending.appendBatch env.wakeBatch).isEmpty) = false) →
      sys2.doneInitial = true := by
  intro qf df sys st env s1 st1 sys2 hstop hac hhr hset
  have h1 : s1.doneInitial = true :=
    (afterCrawl_spec cfg fs qf df sys st env s1 st1 hac).1
  have h2 : sys2 = s1 := by
    rcases handleShouldRecrawl_cases s1 with ⟨_, he⟩ | ⟨_, _, he⟩ | ⟨_, _, he⟩
    · rw [he] at hhr
      simp only [Prod.mk.injEq] at hhr
      exact hhr.2.symm
    · rw [he] at hhr
      simp only [Prod.mk.injEq] at hhr
      exact absurd hhr.1 (by simp)
    · rw [he] at hhr
      simp only [Prod.mk.injEq] at hhr
      exact absurd hhr.1 (by simp)
  rw [h2]
  exact h1

theorem handleShouldRecrawl_tick (sys : Sys) :
    (handleShouldRecrawl sys).2.mostRecentTick = sys.mostRecentTick := by
  rcases handleShouldRecrawl_cases sys with ⟨_, he⟩ | ⟨_, _, he⟩ | ⟨_, _, he⟩ <;>
    simp [he]

theorem doSettleThings_tick (sys : Sys) (cr : Bool) :
    (doSettleThings sys cr).1.mostRecentTick = sys.mostRecentTick := by
  rcases doSettleThings_cases sys cr with ⟨_, he⟩ | ⟨_, _, he⟩ | ⟨_, _, he⟩ <;>
    simp [he]

/-- Exhaustive branch analysis of one execution of `stepIoThread`. -/
theorem stepIoThread_cases (cfg : Config) (fs : Fs) (qf df : Nat) (sys : Sys)
    (st : IoState) (env : StepEnv) (sys' : Sys) (st' : IoState) (cont : Continue)
    (h : stepIoThread cfg fs qf df sys st env = some (sys', st', cont)) :
    (sys.stopThreads = true ∧ sys' = sys ∧ st' = st ∧ cont = Continue.Stop) ∨
    (∃ s1 st1, sys.stopThreads = false ∧
      afterCrawl cfg fs qf df sys st env = some (s1, st1) ∧
      ((∃ lp3, (handleShouldRecrawl s1).1 = true ∧
          fullCrawl cfg fs qf df (handleShouldRecrawl s1).2
            (st1.localPending.appendBatch env.wakeBatch) env.crawlBatches2 =
            some (sys', lp3) ∧
          st' = { st1 with localPending := lp3,
                           currentTimeout := cfg.triggerSettle } ∧
          cont = Continue.Continue) ∨
       ((handleShouldRecrawl s1).1 = false ∧
        (!env.pinged && (st1.localPending.appendBatch env.wakeBatch).isEmpty) = true ∧
        sys' = (doSettleThings s1 env.considerReap).1 ∧
        (((doSettleThings s1 env.considerReap).2 = Continue.Stop ∧
          st' = { st1 with
                  localPending := st1.localPending.appendBatch env.wakeBatch } ∧
          cont = Continue.Stop) ∨
         ((doSettleThings s1 env.considerReap).2 = Continue.Continue ∧
          st' = { st1 with
                  localPending := st1.localPending.appendBatch env.wakeBatch,
                  currentTimeout := min st1.biggestTimeout (st1.currentTimeout * 2) } ∧
          cont = Continue.Continue))) ∨
       ((handleShouldRecrawl s1).1 = false ∧
        (!env.pinged && (st1.localPending.appendBatch env.wakeBatch).isEmpty) = false ∧
        ∃ sysP collP desync processed resolved,
          processAllPending cfg fs qf df
            { s1 with mostRecentTick := s1.mostRecentTick + 1 }
            (st1.localPending.appendBatch env.wakeBatch) =
            some (sysP, collP, desync, processed, resolved) ∧
          sys' = (if desync then
                    { sysP with events := sysP.events ++ [Event.abortAllCookies] }
                  else sysP) ∧
          st' = { st1 with localPending := collP,
                           currentTimeout := cfg.triggerSettle } ∧
          cont = Continue.Continue))) := by
  unfold stepIoThread at h
  by_cases hstop : sys.stopThreads = true
  · rw [if_pos hstop] at h
    simp only [Option.some.injEq, Prod.mk.injEq] at h
    exact Or.inl ⟨hstop, h.1.symm, h.2.1.symm, h.2.2.symm⟩
  · rw [if_neg hstop] at h
    have hstop' : sys.stopThreads = false := by
      cases hs : sys.stopThreads
      · rfl
      · exact absurd hs hstop
    cases hac : afterCrawl cfg fs qf df sys st env with
    | none =>
      rw [hac] at h
      exact absurd h (by simp)
    | some p1 =>
      obtain ⟨s1, st1⟩ := p1
      rw [hac] at h
      dsimp only at h
      refine Or.inr ⟨s1, st1, hstop', rfl, ?_⟩
      rcases hhr : handleShouldRecrawl s1 with ⟨b, sys2⟩
      rw [hhr] at h
      have hs2 : b = false → sys2 = s1 := by
        intro hb
        subst hb
        rcases handleShouldRecrawl_cases s1 with ⟨_, he⟩ | ⟨_, _, he⟩ | ⟨_, _, he⟩ <;>
          rw [he] at hhr <;> simp only [Prod.mk.injEq] at hhr
        · exact hhr.2.symm
        · exact absurd hhr.1 (by simp)
        · exact absurd hhr.1 (by simp)
      cases b
      · -- handleShouldRecrawl returned false
        have hs2' : sys2 = s1 := hs2 rfl
        dsimp only at h
        rw [hs2'] at h
        by_cases hset :
            (!env.pinged && (st1.localPending.appendBatch env.wakeBatch).isEmpty) = true
        · rw [if_pos hset] at h
          rcases hds : doSettleThings s1 env.considerReap with ⟨sys3, c3⟩
          rw [hds] at h
          cases c3
          · -- Continue
            dsimp only at h
            simp only [Option.some.injEq, Prod.mk.injEq] at h
            obtain ⟨h1, h2, h3⟩ := h
            exact Or.inr (Or.inl ⟨rfl, hset, h1.symm,
              Or.inr ⟨rfl, h2.symm, h3.symm⟩⟩)
          · -- Stop
            dsimp only at h
            simp only [Option.some.injEq, Prod.mk.injEq] at h
            obtain ⟨h1, h2, h3⟩ := h
            exact Or.inr (Or.inl ⟨rfl, hset, h1.symm,
              Or.inl ⟨rfl, h2.symm, h3.symm⟩⟩)
        · rw [if_neg hset] at h
          have hset' :
              (!env.pinged && (st1.localPending.appendBatch env.wakeBatch).isEmpty) = false := by
            cases hb : (!env.pinged && (st1.localPending.appendBatch env.wakeBatch).isEmpty)
            · rfl
            · exact absurd hb hset
          cases hpap : processAllPending cfg fs qf df
              { s1 with mostRecentTick := s1.mostRecentTick + 1 }
              (st1.localPending.appendBatch env.wakeBatch) with
          | none =>
            rw [hpap] at h
            exact absurd h (by simp)
          | some p2 =>
            obtain ⟨sysP, collP, desync, processed, resolved⟩ := p2
            rw [hpap] at h
            dsimp only at h
            simp only [Option.some.injEq, Prod.mk.injEq] at h
            obtain ⟨h1, h2, h3⟩ := h
            exact Or.inr (Or.inr ⟨rfl, hset',
              sysP, collP, desync, processed, resolved, rfl, h1.symm, h2.symm, h3.symm⟩)
      · -- handleShouldRecrawl returned true: recrawl
        dsimp only at h
        cases hfc : fullCrawl cfg fs qf df sys2
            (st1.localPending.appendBatch env.wakeBatch) env.crawlBatches2 with
        | none =>
          rw [hfc] at h
          exact absurd h (by simp)
        | some p2 =>
          obtain ⟨sys3, lp3⟩ := p2
          rw [hfc] at h
          dsimp only at h
          simp only [Option.some.injEq, Prod.mk.injEq] at h
          obtain ⟨h1, h2, h3⟩ := h
          refine Or.inl ⟨lp3, rfl, ?_, h2.symm, h3.symm⟩
          rw [← h1]

/-- C8: `mostRecentTick` is incremented exactly once at the start of
every full-crawl pass (at the top of the step or in the recrawl branch)
and once at the head of every batch-processing pass, and never
decreases across a step. -/
theorem c8_tick_increments (cfg : Config) (fs : Fs) :
    ∀ qf df sys st env sys' st' cont,
      stepIoThread cfg fs qf df sys st env = some (sys', st', cont) →
      sys'.mostRecentTick =
        sys.mostRecentTick + stepTickIncrements cfg fs qf df sys st env ∧
      sys.mostRecentTick ≤ sys'.mostRecentTick := by
  intro qf df sys st env sys' st' cont h
  rcases stepIoThread_cases cfg fs qf df sys st env sys' st' cont h with
    ⟨hstop, rfl, _, _⟩ | ⟨s1, st1, hstop, hac, hbr⟩
  · unfold stepTickIncrements
    rw [if_pos hstop]
    simp
  · have ha5 := (afterCrawl_spec cfg fs qf df sys st env s1 st1 hac).2.2.2.2.1
    have hTI : stepTickIncrements cfg fs qf df sys st env =
        (if sys.doneInitial then 0 else 1) +
        (if (handleShouldRecrawl s1).1 then 1
         else if !env.pinged && (st1.localPending.appendBatch env.wakeBatch).isEmpty
         then 0 else 1) := by
      unfold stepTickIncrements
      rw [if_neg (by rw [hstop]; simp), hac]
    rcases hbr with ⟨lp3, hr1, hfc, _, _⟩ |
      ⟨hr0, hset, hsys', _⟩ |
      ⟨hr0, hset, sysP, collP, desync, processed, resolved, hpap, hsys', _, _⟩
    · have ht2 := handleShouldRecrawl_tick s1
      have ht3 := (fullCrawl_spec cfg fs qf df _ _ _ _ _ hfc).2.2.2.1
      rw [hTI, hr1]
      simp only [if_true]
      set c1 : Nat := (if sys.doneInitial = true then 0 else 1) with hc1
      constructor
      · rw [ht3, ht2, ha5, Nat.add_assoc]
      · rw [ht3, ht2, ha5]
        omega
    · have ht : sys'.mostRecentTick = s1.mostRecentTick := by
        rw [hsys']
        exact doSettleThings_tick s1 env.considerReap
      rw [hTI, hr0]
      simp only [Bool.false_eq_true, if_false, hset, if_true]
      set c1 : Nat := (if sys.doneInitial = true then 0 else 1) with hc1
      constructor
      · rw [ht, ha5, Nat.add_zero]
      · rw [ht, ha5]
        omega
    · have hcore := (processAllPending_spec cfg fs qf df _ _ _ _ _ _ _ hpap).1
      have htP : sysP.mostRecentTick = s1.mostRecentTick + 1 :=
        (core_fields hcore).2.2.2.2.2
      have ht' : sys'.mostRecentTick = sysP.mostRecentTick := by
        rw [hsys']
        cases desync
        · rfl
        · rfl
      rw [hTI, hr0]
      simp only [Bool.false_eq_true, if_false, hset]
      set c1 : Nat := (if sys.doneInitial = true then 0 else 1) with hc1
      constructor
      · rw [ht', htP, ha5, Nat.add_assoc]
      · rw [ht', htP, ha5]
        omega

/-- C8 witness: a settle step leaves the tick unchanged, matching a
tick-increment count of zero. -/
theorem c8_witness :
    ({ sysW with events := [Event.settled] } : Sys).mostRecentTick =
      sysW.mostRecentTick + stepTickIncrements cfgW fsW 1 1 sysW stW envW ∧
    sysW.mostRecentTick ≤
      ({ sysW with events := [Event.settled] } : Sys).mostRecentTick :=
  c8_tick_increments cfgW fsW 1 1 sysW stW envW
    { sysW with events := [Event.settled] }
    { stW with localPending := stW.localPending.appendBatch envW.wakeBatch,
               currentTimeout := min stW.biggestTimeout (stW.currentTimeout * 2) }
    Continue.Continue (by decide)

/-- C2: a step emits the settled notification only when the drain
returned empty without a ping, `handleShouldRecrawl` returned false,
and `doneInitial` held at the settle decision. -/
theorem c2_settled_conditions (cfg : Config) (fs : Fs) :
    ∀ qf df sys st env sys' st' cont,
      stepIoThread cfg fs qf df sys st env = some (sys', st', cont) →
      ∃ d, sys'.events = sys.events ++ d ∧
        (Event.settled ∈ d →
          sys.stopThreads = false ∧ env.pinged = false ∧
          ∃ s1 st1, afterCrawl cfg fs qf df sys st env = some (s1, st1) ∧
            (st1.localPending.appendBatch env.wakeBatch).isEmpty = true ∧
            (handleShouldRecrawl s1).1 = false ∧
            s1.doneInitial = true) := by
  intro qf df sys st env sys' st' cont h
  rcases stepIoThread_cases cfg fs qf df sys st env sys' st' cont h with
    ⟨hstop, rfl, _, _⟩ | ⟨s1, st1, hstop, hac, hbr⟩
  · exact ⟨[], by simp, fun hmem => absurd hmem (by simp)⟩
  · obtain ⟨d1, hev1, hd1⟩ :=
      (afterCrawl_spec cfg fs qf df sys st env s1 st1 hac).2.2.2.2.2.1
    rcases hbr with ⟨lp3, hr1, hfc, _, _⟩ |
      ⟨hr0, hset, hsys', _⟩ |
      ⟨hr0, hset, sysP, collP, desync, processed, resolved, hpap, hsys', _, _⟩
    · -- recrawl branch: the crawl emits no settled notification
      obtain ⟨_, _, _, _, _, _, _, ⟨d2, hev2, hd2⟩, _⟩ :=
        fullCrawl_spec cfg fs qf df _ _ _ _ _ hfc
      have hevm : (handleShouldRecrawl s1).2.events = s1.events := by
        rcases handleShouldRecrawl_cases s1 with ⟨_, he⟩ | ⟨_, _, he⟩ | ⟨_, _, he⟩ <;>
          simp [he]
      refine ⟨d1 ++ d2, ?_, ?_⟩
      · rw [hev2, hevm, hev1, List.append_assoc]
      · intro hmem
        rcases List.mem_append.mp hmem with hm | hm
        · exact absurd rfl (hd1 _ hm)
        · exact absurd rfl (hd2 _ hm)
    · -- settle branch
      have hpe : env.pinged = false ∧
          (st1.localPending.appendBatch env.wakeBatch).isEmpty = true := by
        have hb := hset
        simp only [Bool.and_eq_true, Bool.not_eq_true'] at hb
        exact hb
      rcases doSettleThings_cases s1 env.considerReap with
        ⟨hdi, he⟩ | ⟨hdi, hcr, he⟩ | ⟨hdi, hcr, he⟩
      · rw [he] at hsys'
        refine ⟨d1, ?_, fun hmem => absurd rfl (hd1 _ hmem)⟩
        rw [hsys', hev1]
      · rw [he] at hsys'
        refine ⟨d1 ++ [Event.settled], ?_, ?_⟩
        · rw [hsys']
          show s1.events ++ [Event.settled] = sys.events ++ (d1 ++ [Event.settled])
          rw [hev1, List.append_assoc]
        · intro _
          exact ⟨hstop, hpe.1, s1, st1, hac, hpe.2, hr0, hdi⟩
      · rw [he] at hsys'
        refine ⟨d1 ++ [Event.settled, Event.stopWatch], ?_, ?_⟩
        · rw [hsys']
          show (s1.events ++ [Event.settled]) ++ [Event.stopWatch] =
            sys.events ++ (d1 ++ [Event.settled, Event.stopWatch])
          rw [hev1]
          simp
        · intro _
          exact ⟨hstop, hpe.1, s1, st1, hac, hpe.2, hr0, hdi⟩
    · -- batch branch: the pass emits no settled notification
      obtain ⟨dp, hevp, hdp⟩ :=
        processAllPending_settleFree cfg fs qf df _ _ _ _ _ _ _ hpap
      dsimp only at hevp
      cases desync
      · rw [if_neg (by simp)] at hsys'
        refine ⟨d1 ++ dp, ?_, ?_⟩
        · rw [hsys', hevp, hev1, List.append_assoc]
        · intro hmem
          rcases List.mem_append.mp hmem with hm | hm
          · exact absurd rfl (hd1 _ hm)
          · exact absurd rfl (hdp _ hm)
      · rw [if_pos rfl] at hsys'
        refine ⟨d1 ++ dp ++ [Event.abortAllCookies], ?_, ?_⟩
        · rw [hsys']
          show sysP.events ++ [Event.abortAllCookies] =
            sys.events ++ (d1 ++ dp ++ [Event.abortAllCookies])
          rw [hevp, hev1]
          simp
        · intro hmem
          rcases List.mem_append.mp hmem with hm | hm
          · rcases List.mem_append.mp hm with hm' | hm'
            · exact absurd rfl (hd1 _ hm')
            · exact absurd rfl (hdp _ hm')
          · simp only [List.mem_singleton] at hm
            exact absurd hm (by simp)

/-- C2 witness: a settle step whose emitted settled notification indeed
came with an empty un-pinged drain, no recrawl and doneInitial set. -/
theorem c2_witness :
    ∃ d, ({ sysW with events := [Event.settled] } : Sys).events = sysW.events ++ d ∧
      (Event.settled ∈ d →
        sysW.stopThreads = false ∧ envW.pinged = false ∧
        ∃ s1 st1, afterCrawl cfgW fsW 1 1 sysW stW envW = some (s1, st1) ∧
          (st1.localPending.appendBatch envW.wakeBatch).isEmpty = true ∧
          (handleShouldRecrawl s1).1 = false ∧
          s1.doneInitial = true) :=
  c2_settled_conditions cfgW fsW 1 1 sysW stW envW
    { sysW with events := [Event.settled] }
    { stW with localPending := stW.localPending.appendBatch envW.wakeBatch,
               currentTimeout := min stW.biggestTimeout (stW.currentTimeout * 2) }
    Continue.Continue (by decide)

/-- C9 witness: the settle-and-continue step doubles the timeout (capped
at the biggest timeout). -/
theorem c9_witness :
    stepIoThread cfgW fsW 1 1 sysW stW envW =
      some ({ sysW with events := [Event.settled] },
        { stW with
          localPending := stW.localPending.appendBatch envW.wakeBatch,
          currentTimeout := min stW.biggestTimeout (stW.currentTimeout * 2) },
        Continue.Continue) :=
  (c9_timeout_backoff cfgW fsW).1 1 1 sysW stW envW sysW stW
    { sysW with events := [Event.settled] }
    (by decide) (by decide) (by decide) (by decide) (by decide)

/-- C10 witness. -/
theorem c10_witness : sysW.doneInitial = true :=
  c10_batch_stage_done_initial cfgW fsW 1 1 sysW stW envP sysW stW sysW
    (by decide) (by decide) (by decide) (by decide)

end Watchman
